import Mathlib

/-!
Verification of the gitty repository (a terminal git helper written in Go)
against its natural-language specification.

The Go source is shallowly embedded: each Go function used by a claim is
translated into an executable Lean definition operating on `String` /
`List Char` (Go byte strings are modelled as Lean character strings; all
inputs relevant to the claims are ASCII, where the two views agree).
External effects (the `git` subprocess, the file system, timers) are
modelled as explicit environment parameters.  Go `map` iteration order is
unspecified, so every loop of the form `for k, v := range m` is modelled
as a fold over an order parameter `ord` that is quantified over the
permutations of the map's key set.
-/

/-! ## Go string primitives -/

/-- Go `unicode.IsSpace` restricted to the ASCII space characters
(space, tab, newline, carriage return, vertical tab, form feed). -/
def goIsSpace (c : Char) : Bool :=
  c == ' ' || c == '\t' || c == '\n' || c == '\r' || c == '\x0b' || c == '\x0c'

/-- Go `strings.TrimSpace`. -/
def goTrimSpace (s : String) : String :=
  String.mk (((s.data.dropWhile goIsSpace).reverse.dropWhile goIsSpace).reverse)

/-- Split a character list at every character satisfying `p`, dropping
the separators.  Always returns a non-empty list of chunks. -/
def splitOnPred (p : Char → Bool) : List Char → List (List Char)
  | [] => [[]]
  | x :: rest =>
    match splitOnPred p rest with
    | [] => [[]]
    | h :: t => if p x then [] :: h :: t else (x :: h) :: t

/-- Split a character list at every occurrence of `c` (Go
`strings.Split` with a one-character separator). -/
def splitOnChar (c : Char) : List Char → List (List Char) :=
  splitOnPred (· == c)

/-- Go `strings.Split(s, sep)` for a one-character separator. -/
def goSplit (s : String) (c : Char) : List String :=
  (splitOnChar c s.data).map String.mk

/-- The lines of a text, Go `strings.Split(s, "\n")`. -/
def goLines (s : String) : List String := goSplit s '\n'

/-- Substring test on character lists (helper for Go `strings.Contains`). -/
def listContainsSub (s pat : List Char) : Bool :=
  match s with
  | [] => pat.isEmpty
  | _ :: rest => pat.isPrefixOf s || listContainsSub rest pat

/-- Go `strings.Contains`. -/
def strContains (s sub : String) : Bool :=
  listContainsSub s.data sub.data

/-- Index (in characters) of the first occurrence of `pat` in `s`
(helper for Go `strings.Index`; Go returns a byte index, which agrees on
ASCII data, and `-1` for no occurrence, modelled as `none`). -/
def listIndexOfSub (s pat : List Char) : Option Nat :=
  match s with
  | [] => if pat.isEmpty then some 0 else none
  | _ :: rest =>
    if pat.isPrefixOf s then some 0
    else (listIndexOfSub rest pat).map (· + 1)

/-- Go `strings.Index` (as an `Option`). -/
def strIndexOf (s sub : String) : Option Nat :=
  listIndexOfSub s.data sub.data

/-- Go slice `s[n:]` (character index; agrees with bytes on ASCII data). -/
def dropChars (s : String) (n : Nat) : String := String.mk (s.data.drop n)

/-- Go slice `s[:n]`. -/
def takeChars (s : String) (n : Nat) : String := String.mk (s.data.take n)

/-- Go `strings.HasPrefix` (Lean's `String.startsWith` is opaque to
kernel reduction, so prefix tests are done on the character lists). -/
def goStartsWith (s pre : String) : Bool := pre.data.isPrefixOf s.data

/-- Go `strings.HasSuffix`. -/
def goEndsWith (s suf : String) : Bool := suf.data.isSuffixOf s.data

/-- Go `strings.Fields`: split on whitespace runs, dropping empties. -/
def goFields (s : String) : List String :=
  ((splitOnPred goIsSpace s.data).map String.mk).filter (fun w => w ≠ "")

/-- Go `strings.Trim(s, cutset)`. -/
def goTrim (s cutset : String) : String :=
  String.mk (((s.data.dropWhile (cutset.data.contains ·)).reverse.dropWhile
    (cutset.data.contains ·)).reverse)

/-- Go `strings.TrimSuffix`. -/
def goTrimSuffix (s suf : String) : String :=
  if suf.data.isSuffixOf s.data then takeChars s (s.length - suf.length) else s

/-- Go `strings.ToLower` (ASCII). -/
def goToLower (s : String) : String := String.mk (s.data.map Char.toLower)

/-- Go `filepath.Base` (slash-separated paths). -/
def filepathBase (path : String) : String :=
  if path = "" then "."
  else
    let cs := (path.data.reverse.dropWhile (· = '/')).reverse
    if cs = [] then "/"
    else String.mk (cs.reverse.takeWhile (· ≠ '/')).reverse

/-- Go `filepath.Ext`: the suffix of the final path element starting at
its last dot, or the empty string. -/
def filepathExt (path : String) : String :=
  let seg := path.data.reverse.takeWhile (· ≠ '/')
  match seg.findIdx? (· = '.') with
  | some k => String.mk ((seg.take (k + 1)).reverse)
  | none => ""

/-- Go `filepath.Dir` (simplified to the plain relative paths the
program passes it: everything before the final separator, `"."` when
there is none). -/
def filepathDir (path : String) : String :=
  if path.data.contains '/' then
    let rest := (path.data.reverse.dropWhile (· ≠ '/')).dropWhile (· = '/')
    if rest = [] then (if goStartsWith path "/" then "/" else ".")
    else String.mk rest.reverse
  else "."

/-! ## Status parsing (part_000 line 2408 / main.go line 1076,
`parseGitStatusOutput`; the two copies are textually identical modulo
the debug logging in main.go, which has no effect on the result). -/

/-- One iteration of the `parseGitStatusOutput` loop: blank lines are
skipped, lines shorter than 2 characters are ignored, staged counts when
the first status column is neither space nor `?`, unstaged counts when
the second column is not space. -/
def statusLineStep (acc : Nat × Nat) (line : String) : Nat × Nat :=
  if goTrimSpace line = "" then acc
  else if 2 ≤ line.length then
    let stagedStatus := line.data.headD ' '
    let unstagedStatus := (line.data.drop 1).headD ' '
    (if stagedStatus ≠ ' ' ∧ stagedStatus ≠ '?' then acc.1 + 1 else acc.1,
     if unstagedStatus ≠ ' ' then acc.2 + 1 else acc.2)
  else acc

/-- Embedding of `parseGitStatusOutput`: scans the porcelain status
text line by line, returning the staged and unstaged counts and the
clean flag. -/
def parseGitStatusOutput (statusText : String) : Nat × Nat × Bool :=
  if statusText = "" then (0, 0, true)
  else
    let counts := (goLines statusText).foldl statusLineStep (0, 0)
    (counts.1, counts.2, false)

/-- A status line increments the staged counter iff it is non-blank, at
least two characters long, and its first character is neither space nor
`?`. -/
def lineCountsStaged (line : String) : Bool :=
  !(goTrimSpace line == "") && decide (2 ≤ line.length)
    && !(line.data.headD ' ' == ' ') && !(line.data.headD ' ' == '?')

/-- A status line increments the unstaged counter iff it is non-blank,
at least two characters long, and its second character is not space. -/
def lineCountsUnstaged (line : String) : Bool :=
  !(goTrimSpace line == "") && decide (2 ≤ line.length)
    && !((line.data.drop 1).headD ' ' == ' ')

/-! ## Conflict records and the resolution check
(part_000 lines 74-84 and 2916-2923). -/

structure Conflict where
  LineStart : Int
  OursContent : List String
  TheirsContent : List String
deriving DecidableEq

structure ConflictFile where
  Path : String
  Conflicts : List Conflict
  IsResolved : Bool
deriving DecidableEq

/-- The early-exit loop of `allConflictsResolved`: `false` as soon as a
file's `IsResolved` flag is unset. -/
def allConflictsResolvedLoop : List ConflictFile → Bool
  | [] => true
  | c :: rest => if !c.IsResolved then false else allConflictsResolvedLoop rest

/-- The final `return` expression of `allConflictsResolved`:
`len(m.conflicts) == 0 || len(m.conflicts) > 0`. -/
def allConflictsResolvedFinal (conflicts : List ConflictFile) : Bool :=
  conflicts.length == 0 || decide (conflicts.length > 0)

/-- Embedding of `allConflictsResolved` (part_000 line 2916). -/
def allConflictsResolved (conflicts : List ConflictFile) : Bool :=
  if allConflictsResolvedLoop conflicts then allConflictsResolvedFinal conflicts
  else false

/-! ## Command runner (part_000 line 2352 / main.go line 248,
`executeGitCommand`; the two copies are identical). -/

/-- Outcome of actually invoking the external command once:
`CombinedOutput` text plus the error, if any (`err` is the message of a
non-nil Go `error`). -/
structure CmdOutcome where
  output : String
  err : Option String
deriving DecidableEq

/-- Environment of one `executeGitCommand` call: whether the
`.git/index.lock` marker file exists when attempt `i` checks for it, and
what the subprocess would return if executed on attempt `i`. -/
structure GitEnv where
  lockPresent : Nat → Bool
  run : Nat → CmdOutcome

/-- The distinct error returned after the retries are exhausted
(`fmt.Errorf("git command failed after %d retries: index.lock
conflict", maxRetries)` with `maxRetries = 3`). -/
def lockContentionMsg : String :=
  "git command failed after 3 retries: index.lock conflict"

/-- The retry loop of `executeGitCommand`.  `fuel` is the number of
remaining iterations of `for attempt := 0; attempt < maxRetries;
attempt++`, `i` the attempt index and `delay` the current retry delay in
milliseconds (time is not observable; the delay is carried only to
mirror the source, which doubles it solely in the lock-error branch).
The result models Go's `([]byte, error)` pair: `(none, some msg)` is the
lock-contention exhaustion return, `(some output, err)` an ordinary
return of the subprocess outcome. -/
def executeGitCommandLoop (env : GitEnv) :
    Nat → Nat → Nat → Option String × Option String
  | _, _, 0 => (none, some lockContentionMsg)
  | i, delay, fuel + 1 =>
    if env.lockPresent i then executeGitCommandLoop env (i + 1) delay fuel
    else
      let o := env.run i
      if o.err.isSome && strContains o.output "index.lock" then
        executeGitCommandLoop env (i + 1) (delay * 2) fuel
      else (some o.output, o.err)

/-- Embedding of `executeGitCommand`: `maxRetries = 3`, initial delay
100ms. -/
def executeGitCommand (env : GitEnv) : Option String × Option String :=
  executeGitCommandLoop env 0 100 3

/-! ## Diff analysis data model (part_000 lines 25-72; main.go declares
the same `GitChange`, `CommitSuggestion`, `FileAnalysis` and a
`DiffInfo` with a subset of these fields, which this richer record also
covers, the extra fields staying at their zero values). -/

structure GitChange where
  File : String
  Status : String
  «Type» : String := ""
  Scope : String := ""
deriving DecidableEq

structure CommitSuggestion where
  Message : String
  «Type» : String
deriving DecidableEq

structure DiffInfo where
  LinesAdded : Int := 0
  LinesRemoved : Int := 0
  Functions : List String := []
  Imports : List String := []
  HasTests : Bool := false
  HasDocs : Bool := false
  Variables : List String := []
  Keywords : List String := []
  Comments : List String := []
  Context : String := ""
deriving DecidableEq

structure FileAnalysis where
  «Type» : String
  Message : String
  Scope : String
deriving DecidableEq

/-- Go helper `contains` (part_000 line 2129 / main.go line 1477):
linear membership scan over a string slice. -/
def contains : List String → String → Bool
  | [], _ => false
  | s :: rest, item => if s = item then true else contains rest item

/-- Go helper `abs` (source name `abs`; renamed to avoid clashing with
the ambient lattice `abs`). -/
def goAbs (x : Int) : Int := if x < 0 then -x else x

/-! ## Regular-expression matchers used by `extractVariableName`.

`extractVariableName` applies the Go regexps `var\s+(\w+)`,
`const\s+(\w+)`, `let\s+(\w+)`, `(\w+)\s*:=` and `(\w+)\s*=` through
`regexp.FindStringSubmatch`, which returns the leftmost match.  These
specific patterns are deterministic: a keyword pattern matches at a
position iff the keyword literal is followed by at least one space and
then a word character, capturing the maximal word run; a
word-then-literal pattern matches at a position iff a maximal word run,
optional spaces and the literal follow, capturing the word run.  The
scanners below try each start position from the left, which is exactly
RE2's leftmost-match rule for these patterns. -/

/-- RE2 `\w`: ASCII letters, digits и underscore. -/
def isWordChar (c : Char) : Bool := c.isAlphanum || c == '_'

/-- RE2 `\s`: space, tab, newline, form feed, carriage return. -/
def isRegexSpace (c : Char) : Bool :=
  c == ' ' || c == '\t' || c == '\n' || c == '\x0c' || c == '\r'

/-- Try `KW\s+(\w+)` at the start of `s`. -/
def matchKwAt (kw s : List Char) : Option (List Char) :=
  if kw.isPrefixOf s then
    let after := s.drop kw.length
    match after with
    | [] => none
    | c :: _ =>
      if isRegexSpace c then
        let word := (after.dropWhile isRegexSpace).takeWhile isWordChar
        if word.isEmpty then none else some word
      else none
  else none

/-- Leftmost match of `KW\s+(\w+)`. -/
def findKwCapture (kw : List Char) : List Char → Option (List Char)
  | [] => none
  | x :: rest =>
    match matchKwAt kw (x :: rest) with
    | some w => some w
    | none => findKwCapture kw rest

/-- Try `(\w+)\s*LIT` at the start of `s`. -/
def matchWordLitAt (lit s : List Char) : Option (List Char) :=
  match s with
  | [] => none
  | c :: _ =>
    if isWordChar c then
      let word := s.takeWhile isWordChar
      let after := (s.drop word.length).dropWhile isRegexSpace
      if lit.isPrefixOf after then some word else none
    else none

/-- Leftmost match of `(\w+)\s*LIT`. -/
def findWordLit (lit : List Char) : List Char → Option (List Char)
  | [] => none
  | x :: rest =>
    match matchWordLitAt lit (x :: rest) with
    | some w => some w
    | none => findWordLit lit rest

/-- The filter `extractVariableName` applies to a captured name before
accepting it (length over 2 and not one of the common non-names); a
rejected capture makes the code try the next pattern. -/
def varFilter (w : Option (List Char)) : Option String :=
  match w with
  | some cs =>
    let varName := String.mk cs
    if varName.length > 2 ∧ varName ≠ "err" ∧ varName ≠ "nil"
        ∧ varName ≠ "true" ∧ varName ≠ "false" then
      some varName
    else none
  | none => none

/-- Embedding of `extractVariableName` (part_000 line 2149). -/
def extractVariableName (line : String) : String :=
  let t0 := goTrimSpace line
  let trimmed := if goStartsWith t0 "+" then goTrimSpace (dropChars t0 1) else t0
  let cs := trimmed.data
  ((varFilter (findKwCapture "var".data cs)).orElse fun _ =>
    (varFilter (findKwCapture "const".data cs)).orElse fun _ =>
      (varFilter (findKwCapture "let".data cs)).orElse fun _ =>
        (varFilter (findWordLit ":=".data cs)).orElse fun _ =>
          varFilter (findWordLit "=".data cs)).getD ""

/-- Embedding of `extractComment` (part_000 line 2177).  A `//` comment
of 5 characters or fewer falls through to the `#` branch, as in the
source. -/
def extractComment (line : String) : String :=
  let t0 := goTrimSpace line
  let trimmed := if goStartsWith t0 "+" then goTrimSpace (dropChars t0 1) else t0
  let slashComment : Option String :=
    if strContains trimmed "//" then
      let comment := goTrimSpace (dropChars trimmed ((strIndexOf trimmed "//").getD 0 + 2))
      if comment.length > 5 then some comment else none
    else none
  match slashComment with
  | some c => c
  | none =>
    if goStartsWith trimmed "#" && !(goStartsWith trimmed "#include") then
      let comment := goTrimSpace (dropChars trimmed 1)
      if comment.length > 5 then comment else ""
    else ""

/-- Embedding of `isImportLine` (part_000 line 2201 / main.go line 1486,
identical); `line[1:]` drops the `+` prefix of the diff line. -/
def isImportLine (line : String) : Bool :=
  let trimmed := goTrimSpace (dropChars line 1)
  goStartsWith trimmed "import " || goStartsWith trimmed "from " ||
    goStartsWith trimmed "#include" || goStartsWith trimmed "require(" ||
    (goStartsWith trimmed "const " && strContains trimmed "require(") ||
    goStartsWith trimmed "use "

/-- The Go-import branch of `extractImportName`. -/
def importNameGo (trimmed : String) : Option String :=
  if goStartsWith trimmed "import " then
    let parts := goFields trimmed
    if parts.length ≥ 2 then
      let importPath := goTrim (parts.getLastD "") "\""
      some (if strContains importPath "/" then (goSplit importPath '/').getLastD ""
        else importPath)
    else none
  else none

/-- The Python-import branch of `extractImportName`. -/
def importNamePy (trimmed : String) : Option String :=
  if goStartsWith trimmed "from " then
    match goFields trimmed with
    | _ :: p1 :: _ => some p1
    | _ => none
  else none

/-- The JavaScript-require branch of `extractImportName`. -/
def importNameRequire (trimmed : String) : Option String :=
  if strContains trimmed "require(" then
    let start := (strIndexOf trimmed "require(").getD 0 + 8
    match strIndexOf (dropChars trimmed start) ")" with
    | some e =>
      if e > 0 then
        let pkg := goTrim (takeChars (dropChars trimmed start) e) "\"\x27"
        some (if strContains pkg "/" then (goSplit pkg '/').getLastD "" else pkg)
      else none
    | none => none
  else none

/-- Embedding of `extractImportName` (part_000 line 2211 / main.go line
1496, identical). -/
def extractImportName (line : String) : String :=
  let trimmed := goTrimSpace (dropChars line 1)
  ((importNameGo trimmed).orElse fun _ =>
    (importNamePy trimmed).orElse fun _ => importNameRequire trimmed).getD ""

/-! ## `extractFunctionName`, one helper per language branch; a branch
whose guard fires but that finds no candidate falls through to the next
branch, exactly as the nested `if`s of the source do. -/

/-- Go-function branch (`func `, skipping a receiver in parentheses). -/
def goFuncDetect (trimmed : String) : Option String :=
  if strContains trimmed "func " then
    let idx := (strIndexOf trimmed "func ").getD 0
    let remaining := dropChars trimmed (idx + 5)
    let remaining :=
      if goStartsWith remaining "(" then
        match strIndexOf remaining ")" with
        | some parenEnd =>
          if parenEnd > 0 then goTrimSpace (dropChars remaining (parenEnd + 1))
          else remaining
        | none => remaining
      else remaining
    match goFields remaining with
    | [] => none
    | name :: _ =>
      some (match strIndexOf name "(" with
        | some parenIdx => takeChars name parenIdx
        | none => name)
  else none

/-- JavaScript/TypeScript branch (`function `). -/
def jsFuncDetect (trimmed : String) : Option String :=
  if strContains trimmed "function " then
    let idx := (strIndexOf trimmed "function ").getD 0
    match goFields (dropChars trimmed idx) with
    | _ :: name :: _ =>
      some (match strIndexOf name "(" with
        | some parenIdx => takeChars name parenIdx
        | none => name)
    | _ => none
  else none

/-- Arrow-function branch (`=>` with `const `). -/
def arrowFuncDetect (trimmed : String) : Option String :=
  if strContains trimmed " => " || strContains trimmed "=>" then
    if strContains trimmed "const " then
      let idx := (strIndexOf trimmed "const ").getD 0
      let remaining := dropChars trimmed (idx + 6)
      match goFields remaining with
      | name :: _ =>
        let name := if strContains name "=" then (goSplit name '=').headD "" else name
        some (goTrimSpace name)
      | [] => none
    else none
  else none

/-- Python branch (`def `). -/
def pyFuncDetect (trimmed : String) : Option String :=
  if strContains trimmed "def " then
    let idx := (strIndexOf trimmed "def ").getD 0
    match goFields (dropChars trimmed idx) with
    | _ :: name :: _ =>
      some (match strIndexOf name "(" with
        | some parenIdx => takeChars name parenIdx
        | none => name)
    | _ => none
  else none

/-- Class branch (`class `, stripping inheritance syntax). -/
def classDetect (trimmed : String) : Option String :=
  if strContains trimmed "class " then
    let idx := (strIndexOf trimmed "class ").getD 0
    match goFields (dropChars trimmed idx) with
    | _ :: name :: _ =>
      let name := match strIndexOf name ":" with
        | some i => takeChars name i
        | none => name
      let name := match strIndexOf name "(" with
        | some i => takeChars name i
        | none => name
      let name := match strIndexOf name "\x7b" with
        | some i => takeChars name i
        | none => name
      some name
    | _ => none
  else none

/-- Embedding of `extractFunctionName` (part_000 line 2249). -/
def extractFunctionName (line : String) : String :=
  let t0 := goTrimSpace line
  let trimmed := if goStartsWith t0 "+" then goTrimSpace (dropChars t0 1) else t0
  ((goFuncDetect trimmed).orElse fun _ =>
    (jsFuncDetect trimmed).orElse fun _ =>
      (arrowFuncDetect trimmed).orElse fun _ =>
        (pyFuncDetect trimmed).orElse fun _ => classDetect trimmed).getD ""

/-- The indexed loop of main.go's extra method-detection branch. -/
def methodScan : List String → Nat → Option String
  | [], _ => none
  | part :: rest, i =>
    if strContains part "(" then
      let methodName := (goSplit part '(').headD ""
      if i > 0 ∧ ¬ strContains methodName "." = true ∧ methodName ≠ "" then some methodName
      else methodScan rest (i + 1)
    else methodScan rest (i + 1)

namespace MainGo

/-- Method-detection branch present only in main.go's
`extractFunctionName` (line 1630). -/
def methodDetect (trimmed : String) : Option String :=
  if strContains trimmed "public " || strContains trimmed "private " ||
      strContains trimmed "protected " || strContains trimmed "static " then
    methodScan (goFields trimmed) 0
  else none

/-- Embedding of main.go's `extractFunctionName` (line 1537): the
part_000 branches plus the method-detection branch. -/
def extractFunctionName (line : String) : String :=
  let t0 := goTrimSpace line
  let trimmed := if goStartsWith t0 "+" then goTrimSpace (dropChars t0 1) else t0
  ((goFuncDetect trimmed).orElse fun _ =>
    (jsFuncDetect trimmed).orElse fun _ =>
      (arrowFuncDetect trimmed).orElse fun _ =>
        (pyFuncDetect trimmed).orElse fun _ =>
          (classDetect trimmed).orElse fun _ => methodDetect trimmed).getD ""

end MainGo

/-! ## Diff parsing (part_000 line 1689, `parseDiffOutput`).

The topic counters live in a Go `map[string]int`; only the five literal
topic names are ever inserted, so the map is modelled as the record
`CtxCounts` and its key set as `ctxKeys` (the topics with a positive
count, which are exactly the keys present in the map).  The final
`for context, count := range contextCounts` loop iterates in an
unspecified order, modelled by the explicit order parameter of
`selectMaxCount`; theorems quantify it over the permutations of
`ctxKeys`. -/

def bugKeywords : List String := ["bug", "fix", "error", "crash", "issue", "problem"]

def validationKeywords : List String := ["validate", "validation", "check", "verify", "sanitize"]

def apiKeywords : List String := ["endpoint", "route", "handler", "api", "request", "response"]

def securityKeywords : List String := ["auth", "security", "permission", "token", "encrypt"]

def performanceKeywords : List String := ["optimize", "performance", "cache", "speed", "efficient"]

structure CtxCounts where
  fix : Nat := 0
  validation : Nat := 0
  api : Nat := 0
  security : Nat := 0
  performance : Nat := 0
deriving DecidableEq

/-- Lookup in the modelled `contextCounts` map (0 for absent keys). -/
def ctxGet (c : CtxCounts) (k : String) : Nat :=
  if k = "fix" then c.fix
  else if k = "validation" then c.validation
  else if k = "api" then c.api
  else if k = "security" then c.security
  else if k = "performance" then c.performance
  else 0

/-- The five topics, in the declaration order of their keyword lists. -/
def ctxTopics : List String := ["fix", "validation", "api", "security", "performance"]

/-- The key set of the modelled map: topics with a positive count
(listed here in declaration order; iteration order is quantified
separately). -/
def ctxKeys (c : CtxCounts) : List String :=
  ctxTopics.filter (fun k => 0 < ctxGet c k)

/-- The `maxContext`/`maxCount` selection loop shared by
`parseDiffOutput` and `generateCombinedSuggestion`: a fold from
`("", 0)` replacing the running pair whenever a strictly larger count is
seen, over the given iteration order. -/
def selectMaxCount (ord : List String) (count : String → Nat) : String × Nat :=
  ord.foldl (fun acc k => if count k > acc.2 then (k, count k) else acc) ("", 0)

/-- One keyword vocabulary pass of the `parseDiffOutput` added-line
handling: every keyword contained in the lowered line is appended to
`Keywords` (if absent) and bumps this vocabulary's topic counter. -/
def scanKeywordGroup (lineLower : String) (group keywords : List String) (count : Nat) :
    List String × Nat :=
  group.foldl
    (fun (acc : List String × Nat) keyword =>
      if strContains lineLower keyword then
        ((if contains acc.1 keyword then acc.1 else acc.1 ++ [keyword]), acc.2 + 1)
      else acc)
    (keywords, count)

/-- One line of the `parseDiffOutput` loop (part_000 line 1702). -/
def diffLineStep (acc : DiffInfo × CtxCounts) (line : String) : DiffInfo × CtxCounts :=
  let info := acc.1
  let counts := acc.2
  let lineLower := goToLower line
  if goStartsWith line "+" && !(goStartsWith line "+++") then
    let info := { info with LinesAdded := info.LinesAdded + 1 }
    let funcName := extractFunctionName line
    let info :=
      if funcName ≠ "" ∧ ¬ contains info.Functions funcName = true then
        { info with Functions := info.Functions ++ [funcName] }
      else info
    let varName := extractVariableName line
    let info :=
      if varName ≠ "" ∧ ¬ contains info.Variables varName = true then
        { info with Variables := info.Variables ++ [varName] }
      else info
    let info :=
      if isImportLine line then
        let importName := extractImportName line
        if importName ≠ "" ∧ ¬ contains info.Imports importName = true then
          { info with Imports := info.Imports ++ [importName] }
        else info
      else info
    let comment := extractComment line
    let info :=
      if comment ≠ "" then { info with Comments := info.Comments ++ [comment] } else info
    let (kw1, nfix) := scanKeywordGroup lineLower bugKeywords info.Keywords counts.fix
    let (kw2, nval) := scanKeywordGroup lineLower validationKeywords kw1 counts.validation
    let (kw3, napi) := scanKeywordGroup lineLower apiKeywords kw2 counts.api
    let (kw4, nsec) := scanKeywordGroup lineLower securityKeywords kw3 counts.security
    let (kw5, nperf) := scanKeywordGroup lineLower performanceKeywords kw4 counts.performance
    let info := { info with Keywords := kw5 }
    let info := if strContains lineLower "test" then { info with HasTests := true } else info
    let info :=
      if strContains line "//" || strContains line "/*" || strContains line "/**"
          || strContains line "#" then
        { info with HasDocs := true }
      else info
    (info, { fix := nfix, validation := nval, api := napi, security := nsec,
             performance := nperf })
  else if goStartsWith line "-" && !(goStartsWith line "---") then
    ({ info with LinesRemoved := info.LinesRemoved + 1 }, counts)
  else acc

/-- The line scan of `parseDiffOutput`: all `DiffInfo` fields except the
final `Context`, plus the topic counters. -/
def parseDiffScan (diff : String) : DiffInfo × CtxCounts :=
  (goLines diff).foldl diffLineStep ({}, {})

/-- Embedding of `parseDiffOutput` (part_000 line 1689), parameterised
by the map iteration order `ord`. -/
def parseDiffOutput (ord : List String) (diff : String) : DiffInfo :=
  let scan := parseDiffScan diff
  { scan.1 with Context := (selectMaxCount ord (ctxGet scan.2)).1 }

namespace MainGo

/-- One line of main.go's simpler `parseDiffOutput` loop (line 1441):
only line counts, functions, imports, tests and docs. -/
def diffLineStep (info : DiffInfo) (line : String) : DiffInfo :=
  if goStartsWith line "+" && !(goStartsWith line "+++") then
    let info := { info with LinesAdded := info.LinesAdded + 1 }
    let funcName := MainGo.extractFunctionName line
    let info :=
      if funcName ≠ "" ∧ ¬ contains info.Functions funcName = true then
        { info with Functions := info.Functions ++ [funcName] }
      else info
    let info :=
      if isImportLine line then
        let importName := extractImportName line
        if importName ≠ "" ∧ ¬ contains info.Imports importName = true then
          { info with Imports := info.Imports ++ [importName] }
        else info
      else info
    let info :=
      if strContains (goToLower line) "test" then { info with HasTests := true } else info
    if strContains line "//" || strContains line "/*" || strContains line "/**"
        || strContains line "#" then
      { info with HasDocs := true }
    else info
  else if goStartsWith line "-" && !(goStartsWith line "---") then
    { info with LinesRemoved := info.LinesRemoved + 1 }
  else info

/-- Embedding of main.go's `parseDiffOutput` (line 1437). -/
def parseDiffOutput (diff : String) : DiffInfo :=
  (goLines diff).foldl MainGo.diffLineStep {}

end MainGo

/-! ## Commit classification (part_000 line 1828 / main.go line 1666;
the two copies of `determineAdvancedCommitType`, `containsBugFixKeywords`,
`determineScope` and `formatConventionalCommit` are identical). -/

def containsBugFixKeywords (diff : DiffInfo) : Bool :=
  decide (diff.LinesRemoved > 0 ∧ diff.LinesAdded < diff.LinesRemoved)

def determineAdvancedCommitType (file status : String) (diff : DiffInfo) : String :=
  let fileName := filepathBase file
  if strContains status "A" then
    if strContains file "test" || goEndsWith file "_test.go" then "test"
    else if goEndsWith file ".md" || strContains file "README" then "docs"
    else if diff.Functions.length > 0 then "feat"
    else "feat"
  else if strContains status "D" then "chore"
  else if strContains status "M" then
    if goEndsWith file ".md" || strContains file "README" || strContains file "doc" then
      "docs"
    else if strContains file "test" || goEndsWith file "_test.go"
        || goEndsWith file ".test.js" then
      "test"
    else if strContains file "config" || goEndsWith file ".json" || goEndsWith file ".yaml"
        || goEndsWith file ".yml" || goEndsWith file ".toml" || fileName == "Dockerfile"
        || fileName == "Makefile" || goEndsWith file ".env" then
      "chore"
    else if fileName == "package.json" || fileName == "go.mod"
        || fileName == "requirements.txt" || fileName == "Cargo.toml"
        || fileName == "pom.xml" then
      if diff.Imports.length > 0 then "feat" else "chore"
    else if containsBugFixKeywords diff then "fix"
    else if diff.Functions.length > 0 ∨ diff.LinesAdded > diff.LinesRemoved * 2 then "feat"
    else if diff.LinesAdded > 0 ∧ diff.LinesRemoved > 0
        ∧ goAbs (diff.LinesAdded - diff.LinesRemoved) < 10 then "refactor"
    else if diff.LinesAdded + diff.LinesRemoved < 10 then "fix"
    else "feat"
  else "chore"

def determineScope (file : String) : String :=
  let parts := goSplit file '/'
  if parts.length > 1 then
    let firstDir := parts.headD ""
    if firstDir = "src" ∨ firstDir = "lib" then
      if parts.length > 2 then (parts.drop 1).headD "" else "core"
    else if firstDir = "tests" ∨ firstDir = "test" then "test"
    else if firstDir = "docs" ∨ firstDir = "documentation" then "docs"
    else if firstDir = "config" ∨ firstDir = "configs" then "config"
    else if firstDir = "api" then "api"
    else if firstDir = "ui" ∨ firstDir = "frontend" ∨ firstDir = "client" then "ui"
    else if firstDir = "backend" ∨ firstDir = "server" then "api"
    else if firstDir = "scripts" ∨ firstDir = "tools" then "tools"
    else firstDir
  else
    let fileName := filepathBase file
    if strContains fileName "test" then "test"
    else if goEndsWith fileName ".md" then "docs"
    else if strContains fileName "config" then "config"
    else ""

def formatConventionalCommit (commitType scope description : String) : String :=
  if scope ≠ "" then commitType ++ "(" ++ scope ++ "): " ++ description
  else commitType ++ ": " ++ description

/-- Embedding of part_000's `generateSmartCommitMessage` (line 1906). -/
def generateSmartCommitMessage (file status : String) (diff : DiffInfo)
    (commitType0 : String) : String :=
  let fileName := filepathBase file
  let fileExt := filepathExt file
  let baseName := goTrimSuffix fileName fileExt
  let commentMsg : Option String :=
    match diff.Comments with
    | firstComment :: _ =>
      if firstComment.length > 10 ∧ firstComment.length < 60 then
        let lowerComment := goToLower firstComment
        if strContains lowerComment "fix" || strContains lowerComment "add" ||
            strContains lowerComment "update" || strContains lowerComment "remove" then
          some firstComment
        else none
      else none
    | [] => none
  match commentMsg with
  | some c => c
  | none =>
    let ctxPre :=
      if diff.Context = "fix" then "fix"
      else if diff.Context = "validation" then "add validation for"
      else if diff.Context = "api" then "add API endpoint for"
      else if diff.Context = "security" then "improve security in"
      else if diff.Context = "performance" then "optimize"
      else ""
    let commitType := if diff.Context = "fix" then "fix" else commitType0
    if status = "A " ∨ status = " A" then
      if ctxPre ≠ "" ∧ diff.Functions.length > 0 then
        ctxPre ++ " " ++ diff.Functions.headD ""
      else if diff.Functions.length > 0 then
        if diff.Functions.length = 1 then
          if diff.Variables.length > 0 ∧ contains diff.Keywords "error" = true then
            "add " ++ diff.Functions.headD "" ++ " with error handling"
          else "add " ++ diff.Functions.headD ""
        else "add " ++ baseName ++ " with " ++ toString diff.Functions.length ++ " functions"
      else if diff.Imports.length > 0 then "add " ++ baseName ++ " with dependencies"
      else if goEndsWith fileName "_test.go" || strContains fileName "test" then
        "add tests for " ++ goTrimSuffix baseName "_test"
      else if goEndsWith fileName ".md" then
        if fileName = "README.md" then "add README documentation"
        else "add " ++ baseName ++ " documentation"
      else if commitType = "chore" then "add " ++ baseName ++ " config"
      else "add " ++ fileName
    else if status = "D " ∨ status = " D" then "remove " ++ fileName
    else if status = "M " ∨ status = " M" ∨ status = "MM" then
      if ctxPre ≠ "" then
        if diff.Functions.length > 0 then ctxPre ++ " " ++ diff.Functions.headD ""
        else ctxPre ++ " " ++ baseName
      else if contains diff.Keywords "error" || contains diff.Keywords "bug" then
        if diff.Functions.length > 0 then
          "fix error handling in " ++ diff.Functions.headD ""
        else "fix error handling in " ++ baseName
      else if contains diff.Keywords "validate" || contains diff.Keywords "check" then
        if diff.Functions.length > 0 then
          "add validation to " ++ diff.Functions.headD ""
        else "add input validation to " ++ baseName
      else if commitType = "docs" then
        if fileName = "README.md" then "update README"
        else "update " ++ baseName ++ " docs"
      else if commitType = "test" then
        "update " ++ goTrimSuffix baseName "_test" ++ " tests"
      else if commitType = "chore" then
        if fileName = "package.json" ∨ fileName = "go.mod" then
          if diff.Imports.length > 0 then "update dependencies" else "update package config"
        else "update " ++ baseName ++ " config"
      else
        let funcMsg : Option String :=
          if diff.Functions.length > 0 then
            if diff.Functions.length = 1 then
              let funcName := diff.Functions.headD ""
              some (if contains diff.Keywords "auth" || contains diff.Keywords "security" then
                  "improve security in " ++ funcName
                else if contains diff.Keywords "optimize"
                    || contains diff.Keywords "performance" then
                  "optimize " ++ funcName
                else if commitType = "fix" then "fix " ++ funcName
                else if commitType = "refactor" then "refactor " ++ funcName
                else "update " ++ funcName)
            else if diff.Functions.length ≤ 3 then
              some (if commitType = "refactor" then
                  "refactor " ++ toString diff.Functions.length ++ " functions in " ++ baseName
                else
                  "update " ++ toString diff.Functions.length ++ " functions in " ++ baseName)
            else none
          else none
        match funcMsg with
        | some msg => msg
        | none =>
          if diff.Imports.length > 0 then
            if commitType = "feat" then "add dependencies to " ++ baseName
            else "update imports in " ++ baseName
          else
            let sizeMsg : Option String :=
              if diff.LinesAdded > diff.LinesRemoved * 3 then
                if commitType = "feat" then some ("extend " ++ baseName ++ " functionality")
                else none
              else if diff.LinesRemoved > diff.LinesAdded * 2 then
                some (if commitType = "refactor" then "simplify " ++ baseName
                  else "clean up " ++ baseName)
              else none
            match sizeMsg with
            | some msg => msg
            | none =>
              if commitType = "fix" then "fix issues in " ++ baseName
              else if commitType = "refactor" then "refactor " ++ baseName
              else if commitType = "feat" then "enhance " ++ baseName
              else "update " ++ baseName
    else "modify " ++ fileName

/-- Embedding of part_000's `analyzeFileChange` (line 1809). -/
def analyzeFileChange (change : GitChange) (diff : DiffInfo) : FileAnalysis :=
  let file := change.File
  let status := change.Status
  let scope := determineScope file
  let commitType := determineAdvancedCommitType file status diff
  let rawMessage := generateSmartCommitMessage file status diff commitType
  let message := formatConventionalCommit commitType scope rawMessage
  { «Type» := commitType, Message := message, Scope := scope }

namespace MainGo

/-- Embedding of main.go's `generateSmartCommitMessage` (line 1757). -/
def generateSmartCommitMessage (file status : String) (diff : DiffInfo)
    (commitType : String) : String :=
  let fileName := filepathBase file
  let fileExt := filepathExt file
  let baseName := goTrimSuffix fileName fileExt
  let dir := filepathDir file
  let dirName := filepathBase dir
  if status = "A" then
    if diff.Functions.length > 0 then
      if diff.Functions.length = 1 then "add " ++ diff.Functions.headD "" ++ " function"
      else "add " ++ baseName ++ " with " ++ toString diff.Functions.length ++ " functions"
    else if diff.Imports.length > 0 then "add " ++ baseName ++ " with dependencies"
    else if goEndsWith fileName "_test.go" || strContains fileName "test" then
      "add tests for " ++ goTrimSuffix baseName "_test"
    else if goEndsWith fileName ".md" then
      if fileName = "README.md" then "add README documentation"
      else "add " ++ baseName ++ " documentation"
    else if commitType = "chore" then "add " ++ baseName ++ " config"
    else "add " ++ fileName
  else if status = "D" then "remove " ++ fileName
  else if status = "M" then
    if commitType = "docs" then
      if fileName = "README.md" then "update README"
      else "update " ++ baseName ++ " docs"
    else if commitType = "test" then "update " ++ goTrimSuffix baseName "_test" ++ " tests"
    else if commitType = "chore" then
      if fileName = "package.json" ∨ fileName = "go.mod" then
        if diff.Imports.length > 0 then "update dependencies" else "update package config"
      else "update " ++ baseName ++ " config"
    else
      let funcMsg : Option String :=
        if diff.Functions.length > 0 then
          if diff.Functions.length = 1 then
            let funcName := diff.Functions.headD ""
            some (if commitType = "fix" then "fix " ++ funcName ++ " function"
              else if commitType = "refactor" then "refactor " ++ funcName ++ " function"
              else "update " ++ funcName ++ " function")
          else if diff.Functions.length ≤ 3 then
            some (if commitType = "refactor" then
                "refactor " ++ toString diff.Functions.length ++ " functions in " ++ baseName
              else
                "update " ++ toString diff.Functions.length ++ " functions in " ++ baseName)
          else none
        else none
      match funcMsg with
      | some msg => msg
      | none =>
        if diff.Imports.length > 0 then
          if commitType = "feat" then "add dependencies to " ++ baseName
          else "update imports in " ++ baseName
        else
          let sizeMsg : Option String :=
            if diff.LinesAdded > diff.LinesRemoved * 3 then
              if commitType = "feat" then some ("extend " ++ baseName ++ " functionality")
              else none
            else if diff.LinesRemoved > diff.LinesAdded * 2 then
              some (if commitType = "refactor" then "simplify " ++ baseName
                else "clean up " ++ baseName)
            else none
          match sizeMsg with
          | some msg => msg
          | none =>
            if commitType = "fix" then "fix issues in " ++ baseName
            else if commitType = "refactor" then "refactor " ++ baseName
            else if commitType = "feat" then
              if dirName ≠ "." ∧ dirName ≠ file then
                "enhance " ++ baseName ++ " in " ++ dirName
              else "enhance " ++ baseName
            else "update " ++ baseName
  else if status = "R" then "rename " ++ fileName
  else "modify " ++ fileName

/-- Embedding of main.go's `analyzeFileChange` (line 1647). -/
def analyzeFileChange (change : GitChange) (diff : DiffInfo) : FileAnalysis :=
  let file := change.File
  let status := change.Status
  let scope := determineScope file
  let commitType := determineAdvancedCommitType file status diff
  let rawMessage := MainGo.generateSmartCommitMessage file status diff commitType
  let message := formatConventionalCommit commitType scope rawMessage
  { «Type» := commitType, Message := message, Scope := scope }

end MainGo

/-! ## Suggestion aggregation (part_000 line 1536 / main.go line 1289).

`generateCombinedSuggestion` counts types and scopes in two Go maps;
they are modelled as the counting functions `typeCountOf`/`scopeCountOf`
with key sets `typeKeysOf`/`scopeKeysOf`, and the two
`for k, count := range …` selection loops take iteration-order
parameters `tOrd`/`sOrd` (quantified over permutations of the key sets
in the theorems).  The external `git diff` invocation inside
`getFileDiff` is abstracted as the oracle `diffTextOf` giving the diff
text per file. -/

/-- Scope extraction from a conventionally formatted message
(`generateCombinedSuggestion`'s substring between `(` and `):`). -/
def extractScope (msg : String) : Option String :=
  if strContains msg "(" && strContains msg "):" then
    let start := (strIndexOf msg "(").getD 0 + 1
    let e := (strIndexOf msg "):").getD 0
    if e > start then some (String.mk ((msg.data.drop start).take (e - start)))
    else none
  else none

/-- `typeCounts[k]` of `generateCombinedSuggestion`. -/
def typeCountOf (individual : List CommitSuggestion) (k : String) : Nat :=
  individual.countP (fun s => s.«Type» == k)

/-- `scopeCounts[k]` of `generateCombinedSuggestion`. -/
def scopeCountOf (individual : List CommitSuggestion) (k : String) : Nat :=
  individual.countP (fun s => extractScope s.Message == some k)

/-- Key set of `typeCounts` (distinct types occurring). -/
def typeKeysOf (individual : List CommitSuggestion) : List String :=
  (individual.map (fun s => s.«Type»)).dedup

/-- Key set of `scopeCounts` (distinct extracted scopes). -/
def scopeKeysOf (individual : List CommitSuggestion) : List String :=
  (individual.filterMap (fun s => extractScope s.Message)).dedup

/-- Embedding of part_000's `generateCombinedSuggestion` (line 1571).
`tOrd`/`sOrd` are the iteration orders of the two count maps.  The
`functionNames` slice is collected by the source but never read
afterwards; it is reproduced here for fidelity. -/
def generateCombinedSuggestion (tOrd sOrd : List String)
    (individual : List CommitSuggestion) (changes : List GitChange) : CommitSuggestion :=
  if individual.length = 0 then { Message := "", «Type» := "" }
  else
    let functionNames := individual.enum.filterMap (fun p =>
      if p.1 < changes.length then
        let parts := goSplit p.2.Message ' '
        if parts.length > 2 then some (parts.getLastD "") else none
      else none)
    let mainType := (selectMaxCount tOrd (typeCountOf individual)).1
    let mainScope := (selectMaxCount sOrd (scopeCountOf individual)).1
    let maxScopeCount := (selectMaxCount sOrd (scopeCountOf individual)).2
    let totalFiles := individual.length
    let description :=
      if (typeKeysOf individual).length = 1 then
        if mainType = "feat" then
          if totalFiles = 1 then "add new feature"
          else "add new features across " ++ toString totalFiles ++ " files"
        else if mainType = "fix" then
          if totalFiles = 1 then "fix bug"
          else "fix multiple bugs (" ++ toString totalFiles ++ " files)"
        else if mainType = "docs" then "update documentation"
        else if mainType = "test" then "update tests"
        else if mainType = "chore" then "update configuration"
        else if mainType = "refactor" then "refactor code"
        else "update files"
      else "update " ++ toString totalFiles ++ " files with mixed changes"
    let finalScope := if maxScopeCount > totalFiles / 2 then mainScope else ""
    let _ := functionNames
    { Message := formatConventionalCommit mainType finalScope description,
      «Type» := mainType }

/-- Embedding of part_000's `analyzeChangesForCommits` (line 1536):
individual suggestions per change, a combined suggestion first when its
message is non-empty, individual suggestions appended only for 5 or
fewer files, and the list capped at 9 entries.  `ordFor` gives the
context-map iteration order used when parsing each file's diff. -/
def individualSuggestionsOf (ordFor : String → List String) (changes : List GitChange)
    (diffTextOf : String → String) : List CommitSuggestion :=
  changes.map (fun change =>
    let diffInfo := parseDiffOutput (ordFor change.File) (diffTextOf change.File)
    let analysis := analyzeFileChange change diffInfo
    { Message := analysis.Message, «Type» := analysis.«Type» : CommitSuggestion })

def analyzeChangesForCommits (ordFor : String → List String) (tOrd sOrd : List String)
    (changes : List GitChange) (diffTextOf : String → String) : List CommitSuggestion :=
  let individualSuggestions := individualSuggestionsOf ordFor changes diffTextOf
  let combinedSuggestion := generateCombinedSuggestion tOrd sOrd individualSuggestions changes
  let suggestions : List CommitSuggestion :=
    if combinedSuggestion.Message ≠ "" then [combinedSuggestion] else []
  let suggestions :=
    if individualSuggestions.length ≤ 5 then suggestions ++ individualSuggestions
    else suggestions
  if suggestions.length > 9 then suggestions.take 9 else suggestions

namespace MainGo

/-- Embedding of main.go's `generateCombinedSuggestion` (line 1324; the
`grouped` parameter is unused by the source and omitted). -/
def generateCombinedSuggestion (tOrd sOrd : List String)
    (individual : List CommitSuggestion) : CommitSuggestion :=
  if individual.length = 0 then { Message := "", «Type» := "" }
  else
    let mainType := (selectMaxCount tOrd (typeCountOf individual)).1
    let mainScope := (selectMaxCount sOrd (scopeCountOf individual)).1
    let maxScopeCount := (selectMaxCount sOrd (scopeCountOf individual)).2
    let totalFiles := individual.length
    let description :=
      if (typeKeysOf individual).length = 1 then
        if mainType = "feat" then "add features"
        else if mainType = "fix" then "fix issues"
        else if mainType = "docs" then "update docs"
        else if mainType = "test" then "update tests"
        else if mainType = "chore" then "update config"
        else if mainType = "refactor" then "refactor code"
        else "update files"
      else "update multiple files"
    let description :=
      if totalFiles > 1 then description ++ " (" ++ toString totalFiles ++ " files)"
      else description
    let finalScope := if maxScopeCount > totalFiles / 2 then mainScope else ""
    { Message := formatConventionalCommit mainType finalScope description,
      «Type» := mainType }

/-- Embedding of main.go's `analyzeChangesForCommits` (line 1289):
combined suggestion first, individual suggestions appended only for 3 or
fewer files, list capped at 5 entries. -/
def individualSuggestionsOf (changes : List GitChange)
    (diffTextOf : String → String) : List CommitSuggestion :=
  changes.map (fun change =>
    let diffInfo := MainGo.parseDiffOutput (diffTextOf change.File)
    let analysis := MainGo.analyzeFileChange change diffInfo
    { Message := analysis.Message, «Type» := analysis.«Type» : CommitSuggestion })

def analyzeChangesForCommits (tOrd sOrd : List String) (changes : List GitChange)
    (diffTextOf : String → String) : List CommitSuggestion :=
  let individualSuggestions := MainGo.individualSuggestionsOf changes diffTextOf
  let combinedSuggestion := MainGo.generateCombinedSuggestion tOrd sOrd individualSuggestions
  let suggestions : List CommitSuggestion :=
    if combinedSuggestion.Message ≠ "" then [combinedSuggestion] else []
  let suggestions :=
    if individualSuggestions.length ≤ 3 then suggestions ++ individualSuggestions
    else suggestions
  if suggestions.length > 5 then suggestions.take 5 else suggestions

end MainGo

/-! ## Spec-side rule list for claim C3.

`specModifiedRules` is written from the claim's own words (the ordered
rule list for modified files), with the claim's abstract path classes
instantiated by the code's predicates; it is compared with the code's
`determineAdvancedCommitType`. -/

/-- The claim's ordered rules for a modified file. -/
def specModifiedRules (file : String) (diff : DiffInfo) : String :=
  let fileName := filepathBase file
  if goEndsWith file ".md" || strContains file "README" || strContains file "doc" then
    "docs"
  else if strContains file "test" || goEndsWith file "_test.go"
      || goEndsWith file ".test.js" then
    "test"
  else if strContains file "config" || goEndsWith file ".json" || goEndsWith file ".yaml"
      || goEndsWith file ".yml" || goEndsWith file ".toml" || fileName == "Dockerfile"
      || fileName == "Makefile" || goEndsWith file ".env" then
    "chore"
  else if fileName == "package.json" || fileName == "go.mod"
      || fileName == "requirements.txt" || fileName == "Cargo.toml"
      || fileName == "pom.xml" then
    if diff.Imports.length > 0 then "feat" else "chore"
  else if diff.LinesRemoved > diff.LinesAdded then "fix"
  else if diff.Functions.length > 0 ∨ diff.LinesAdded > diff.LinesRemoved * 2 then "feat"
  else if diff.LinesAdded > 0 ∧ diff.LinesRemoved > 0
      ∧ goAbs (diff.LinesAdded - diff.LinesRemoved) < 10 then "refactor"
  else if diff.LinesAdded + diff.LinesRemoved < 10 then "fix"
  else "feat"

/-! ## Concrete inputs for claims C4 and C8. -/

/-- A diff adding one line that contains both a defect keyword (`bug`)
and a validation keyword (`validate`), so the two topic counters tie
at 1. -/
def c4diff : String := "+bug validate\n"

/-- The claim C8 scenario: a diff of `src/auth/login.go` that adds the
function `ValidateToken` (its body spanning six added lines), removes 3
lines, and adds one further line containing `token`. -/
def c8diff : String :=
  "--- a/src/auth/login.go\n" ++
  "+++ b/src/auth/login.go\n" ++
  "@@ -10,3 +10,7 @@\n" ++
  "-\tsession := legacyCheck(user)\n" ++
  "-\tif session == nil \x7b\n" ++
  "-\t\treturn false\n" ++
  "+func ValidateToken(t string) bool \x7b\n" ++
  "+\tif len(t) == 0 \x7b\n" ++
  "+\t\treturn false\n" ++
  "+\t\x7d\n" ++
  "+\treturn true\n" ++
  "+\x7d\n" ++
  "+\treturn token\n"

/-! ## The part_000 application state machine (lines 104-153 `model`,
520-652 `Update`, 658-1213 key handlers).

Reduction of the Bubble Tea model: the table widgets are represented by
their cursor positions (widget-internal navigation is an external
collaborator per the spec, modelled as the opaque `Cmd.widget` result
with the reduced state unchanged); the text inputs by a focused flag and
a value; the time-stamped `statusExpiry` fields are dropped (real time
is outside the embedding; only `statusMsg` itself is kept).  A `tea.Cmd`
is modelled by the inductive `Cmd` naming the asynchronous operation the
transition issues; async results re-enter as `Msg` values whose payloads
are environment-chosen (they are parses of external git output). -/

structure GitStatus where
  Branch : String := ""
  Clean : Bool := false
  StagedFiles : Int := 0
  UnstagedFiles : Int := 0
  Ahead : Int := 0
  Behind : Int := 0
deriving DecidableEq

structure Branch where
  Name : String
  IsCurrent : Bool := false
  Upstream : String := ""
  Ahead : Int := 0
  Behind : Int := 0
deriving DecidableEq

structure Commit where
  Hash : String := ""
  Message : String := ""
  Author : String := ""
  Date : String := ""
deriving DecidableEq

structure RebaseCommit where
  Hash : String := ""
  Message : String := ""
  Action : String := ""
deriving DecidableEq

structure BranchComparison where
  SourceBranch : String := ""
  TargetBranch : String := ""
  AheadCommits : List Commit := []
  BehindCommits : List Commit := []
  DifferingFiles : List String := []
deriving DecidableEq

structure Model where
  tab : String := ""
  toolMode : String := ""
  viewMode : String := ""
  changes : List GitChange := []
  suggestions : List CommitSuggestion := []
  gitState : GitStatus := {}
  branches : List Branch := []
  commits : List Commit := []
  conflicts : List ConflictFile := []
  branchComparison : Option BranchComparison := none
  rebaseCommits : List RebaseCommit := []
  showDiffPreview : Bool := false
  selectedSuggestion : Int := 0
  statusMsg : String := ""
  confirmAction : String := ""
  commitInputFocused : Bool := false
  commitInputValue : String := ""
  branchInputFocused : Bool := false
  branchInputValue : String := ""
  rebaseInputFocused : Bool := false
  rebaseInputValue : String := ""
  filesCursor : Nat := 0
  branchesCursor : Nat := 0
  toolsCursor : Nat := 0
  historyCursor : Nat := 0
  conflictsCursor : Nat := 0
  rebaseCursor : Nat := 0
  undoCursor : Nat := 0
deriving DecidableEq

/-- `initialModel` (part_000 line 225); repoPath and widget construction
are external. -/
def initialModel : Model :=
  { tab := "workspace", toolMode := "menu", viewMode := "files",
    showDiffPreview := true, selectedSuggestion := 0 }

/-- The commands a transition can issue (`tea.Cmd` values of the
source, by name; `widget` stands for forwarding the key to a
table/input component). -/
inductive Cmd where
  | none
  | quit
  | widget
  | batch (cmds : List Cmd)
  | toggleStaging (file : String)
  | gitAddAll
  | refreshAfterStaging
  | loadGitChanges
  | loadGitStatus
  | viewDiff (file : String)
  | gitReset
  | resolveConflict (index : Nat) (resolution : String)
  | continueMerge
  | commitWithMessage (message : String)
  | refreshAfterCommit
  | generateCommitSuggestions
  | loadConflicts
  | switchBranch (name : String)
  | createBranch (name : String)
  | deleteBranch (name : String)
  | loadBranches
  | loadBranchComparison (target : String)
  | loadHistory
  | loadReflog
  | loadRebaseCommits (count : Int)
  | softReset (count : Int)
  | mixedReset (count : Int)
  | hardReset (count : Int)
  | executeRebase
  | gitPush
  | gitPull
  | gitFetch

/-- Go `strings.TrimPrefix`. -/
def goTrimPrefixOf (s pre : String) : String :=
  if goStartsWith s pre then dropChars s pre.length else s

/-- Go `strconv.Atoi`, restricted to the optionally signed decimal
integers it accepts. -/
def digitsToNat (cs : List Char) : Nat :=
  cs.foldl (fun n c => n * 10 + (c.toNat - 48)) 0

def goAtoi (s : String) : Option Int :=
  if s.data ≠ [] ∧ s.data.all Char.isDigit then some (digitsToNat s.data)
  else if goStartsWith s "-" ∧ (dropChars s 1).data ≠ []
      ∧ (dropChars s 1).data.all Char.isDigit then
    some (-(digitsToNat (dropChars s 1).data))
  else none

/-- `anyInputFocused` (part_000 line 756). -/
def anyInputFocused (m : Model) : Bool :=
  m.commitInputFocused || m.branchInputFocused || m.rebaseInputFocused

/-- `handleEscape` (part_000 line 712): blur a focused input first, then
close the innermost open sub-view (diff, comparison, tools sub-mode),
then clear a pending confirmation token; each press handles exactly one
of these and returns. -/
def handleEscape (m : Model) : Model × Cmd :=
  if m.commitInputFocused then
    ({ m with commitInputFocused := false, selectedSuggestion := 0 }, Cmd.none)
  else if m.branchInputFocused then
    ({ m with branchInputFocused := false, branchInputValue := "" }, Cmd.none)
  else if m.rebaseInputFocused then
    ({ m with rebaseInputFocused := false, rebaseInputValue := "" }, Cmd.none)
  else if m.viewMode = "diff" then
    ({ m with viewMode := "files" }, Cmd.none)
  else if m.branchComparison.isSome then
    ({ m with branchComparison := none }, Cmd.none)
  else if m.tab = "tools" ∧ m.toolMode ≠ "menu" then
    ({ m with toolMode := "menu" }, Cmd.none)
  else if m.confirmAction ≠ "" then
    ({ m with confirmAction := "", statusMsg := "❌ Action cancelled" }, Cmd.none)
  else (m, Cmd.none)

/-- `handleConflictKeys` (part_000 line 821). -/
def handleConflictKeys (m : Model) (key : String) : Model × Cmd :=
  if m.conflicts.length = 0 then (m, Cmd.none)
  else if m.conflicts.length ≤ m.conflictsCursor then (m, Cmd.none)
  else if key = "o" then (m, Cmd.resolveConflict m.conflictsCursor "ours")
  else if key = "t" then (m, Cmd.resolveConflict m.conflictsCursor "theirs")
  else if key = "b" then (m, Cmd.resolveConflict m.conflictsCursor "both")
  else if key = "enter" then (m, Cmd.none)
  else if key = "c" then
    if allConflictsResolved m.conflicts then (m, Cmd.continueMerge)
    else ({ m with statusMsg := "❌ Resolve all conflicts before continuing" }, Cmd.none)
  else (m, Cmd.widget)

/-- `handleWorkspaceKeys` (part_000 line 764); the conflicts sub-mode
delegates to `handleConflictKeys`. -/
def handleWorkspaceKeys (m : Model) (key : String) : Model × Cmd :=
  if m.viewMode = "conflicts" then handleConflictKeys m key
  else if key = " " then
    if m.changes.length > 0 ∧ m.filesCursor < m.changes.length then
      (m, Cmd.toggleStaging (m.changes.getD m.filesCursor { File := "", Status := "" }).File)
    else (m, Cmd.none)
  else if key = "a" then (m, Cmd.batch [Cmd.gitAddAll, Cmd.refreshAfterStaging])
  else if key = "r" then (m, Cmd.batch [Cmd.loadGitChanges, Cmd.loadGitStatus])
  else if key = "v" then
    let m := { m with showDiffPreview := !m.showDiffPreview }
    if m.showDiffPreview ∧ m.changes.length > 0 ∧ m.filesCursor < m.changes.length then
      (m, Cmd.viewDiff (m.changes.getD m.filesCursor { File := "", Status := "" }).File)
    else (m, Cmd.none)
  else if key = "d" then
    if m.changes.length > 0 ∧ m.filesCursor < m.changes.length then
      ({ m with viewMode := "diff" },
       Cmd.viewDiff (m.changes.getD m.filesCursor { File := "", Status := "" }).File)
    else (m, Cmd.none)
  else if key = "R" then (m, Cmd.batch [Cmd.gitReset, Cmd.refreshAfterStaging])
  else
    let m := if key = "up" ∨ key = "down" then
        { m with statusMsg := "DEBUG: Passing " ++ key ++ " to filesTable" }
      else m
    (m, Cmd.widget)

/-- `handleCommitKeys` (part_000 line 861). -/
def handleCommitKeys (m : Model) (key : String) : Model × Cmd :=
  if m.commitInputFocused then
    if key = "enter" ∧ m.commitInputValue ≠ "" then
      ({ m with
          commitInputValue := "", commitInputFocused := false,
          selectedSuggestion := 0 },
       Cmd.batch [Cmd.commitWithMessage m.commitInputValue, Cmd.refreshAfterCommit])
    else (m, Cmd.none)
  else if key = "up" ∨ key = "k" then
    (if m.selectedSuggestion > 0 then
        { m with selectedSuggestion := m.selectedSuggestion - 1 }
      else m, Cmd.none)
  else if key = "down" ∨ key = "j" then
    (if m.selectedSuggestion < (m.suggestions.length : Int) then
        { m with selectedSuggestion := m.selectedSuggestion + 1 }
      else m, Cmd.none)
  else if key = "enter" ∧ m.selectedSuggestion > 0 then
    if m.selectedSuggestion ≤ (m.suggestions.length : Int) then
      (m, Cmd.batch
        [Cmd.commitWithMessage
          (m.suggestions.getD (m.selectedSuggestion - 1).toNat
            { Message := "", «Type» := "" }).Message,
         Cmd.refreshAfterCommit])
    else (m, Cmd.none)
  else if key = " " ∧ m.selectedSuggestion > 0 then
    if m.selectedSuggestion ≤ (m.suggestions.length : Int) then
      (m, Cmd.batch
        [Cmd.commitWithMessage
          (m.suggestions.getD (m.selectedSuggestion - 1).toNat
            { Message := "", «Type» := "" }).Message,
         Cmd.refreshAfterCommit])
    else (m, Cmd.none)
  else if key = "c" ∨ (key = "enter" ∧ m.selectedSuggestion = 0) then
    ({ m with commitInputFocused := true, selectedSuggestion := -1 }, Cmd.none)
  else (m, Cmd.none)

/-- The target-branch selection loop of the branches-tab `c` key
(`main` wins immediately, `master` is remembered). -/
def compareTargetLoop : List Branch → String → String
  | [], t => t
  | b :: rest, t =>
    if b.Name = "main" then "main"
    else if b.Name = "master" then compareTargetLoop rest "master"
    else compareTargetLoop rest t

def compareTarget (bs : List Branch) : String := compareTargetLoop bs "main"

/-- `handleBranchesKeys` (part_000 line 931). -/
def handleBranchesKeys (m : Model) (key : String) : Model × Cmd :=
  if m.branchInputFocused then
    if key = "enter" ∧ m.branchInputValue ≠ "" then
      ({ m with branchInputValue := "", branchInputFocused := false },
       Cmd.createBranch m.branchInputValue)
    else (m, Cmd.none)
  else if m.branchComparison.isSome then (m, Cmd.widget)
  else if key = "enter" then
    if m.branches.length > 0 ∧ m.branchesCursor < m.branches.length then
      let branch := m.branches.getD m.branchesCursor { Name := "" }
      if ¬ branch.IsCurrent = true then (m, Cmd.switchBranch branch.Name)
      else (m, Cmd.none)
    else (m, Cmd.none)
  else if key = "n" then ({ m with branchInputFocused := true }, Cmd.none)
  else if key = "d" then
    if m.branches.length > 0 ∧ m.branchesCursor < m.branches.length then
      let branch := m.branches.getD m.branchesCursor { Name := "" }
      if branch.IsCurrent then
        ({ m with statusMsg := "❌ Cannot delete current branch" }, Cmd.none)
      else
        ({ m with
            confirmAction := "delete-branch:" ++ branch.Name,
            statusMsg := "⚠️ Press \x27y\x27 to confirm delete \x27" ++ branch.Name
              ++ "\x27, or ESC to cancel" },
         Cmd.none)
    else (m, Cmd.none)
  else if key = "y" then
    if goStartsWith m.confirmAction "delete-branch:" then
      ({ m with confirmAction := "" },
       Cmd.deleteBranch (goTrimPrefixOf m.confirmAction "delete-branch:"))
    else (m, Cmd.none)
  else if key = "c" then (m, Cmd.loadBranchComparison (compareTarget m.branches))
  else if key = "r" then (m, Cmd.loadBranches)
  else (m, Cmd.widget)

/-- `handleToolsMenuKeys` (part_000 line 1038). -/
def handleToolsMenuKeys (m : Model) (key : String) : Model × Cmd :=
  if key = "enter" ∧ m.toolsCursor = 0 then ({ m with toolMode := "undo" }, Cmd.none)
  else if key = "enter" ∧ m.toolsCursor = 1 then
    ({ m with toolMode := "rebase", rebaseInputFocused := true }, Cmd.none)
  else if key = "enter" ∧ m.toolsCursor = 2 then
    ({ m with toolMode := "history" }, Cmd.loadHistory)
  else if key = "enter" ∧ m.toolsCursor = 3 then ({ m with toolMode := "remote" }, Cmd.none)
  else (m, Cmd.widget)

/-- `handleUndoKeys` (part_000 line 1064). -/
def handleUndoKeys (m : Model) (key : String) : Model × Cmd :=
  if key = "enter" ∧ m.undoCursor = 0 then
    ({ m with
        confirmAction := "soft-reset",
        statusMsg := "⚠️ Press \x27y\x27 to undo last commit (keep changes), or ESC to cancel" },
     Cmd.none)
  else if key = "enter" ∧ m.undoCursor = 1 then
    ({ m with
        confirmAction := "mixed-reset",
        statusMsg := "⚠️ Press \x27y\x27 to undo last commit (unstage changes), or ESC to cancel" },
     Cmd.none)
  else if key = "enter" ∧ m.undoCursor = 2 then
    ({ m with
        confirmAction := "hard-reset",
        statusMsg := "⚠️⚠️⚠️ DANGEROUS: Press \x27y\x27 to undo and DISCARD changes, or ESC to cancel" },
     Cmd.none)
  else if key = "enter" ∧ m.undoCursor = 3 then (m, Cmd.loadReflog)
  else if key = "y" then
    if m.confirmAction = "soft-reset" then ({ m with confirmAction := "" }, Cmd.softReset 1)
    else if m.confirmAction = "mixed-reset" then
      ({ m with confirmAction := "" }, Cmd.mixedReset 1)
    else if m.confirmAction = "hard-reset" then
      ({ m with confirmAction := "" }, Cmd.hardReset 1)
    else (m, Cmd.none)
  else (m, Cmd.widget)

/-- `handleRebaseKeys` (part_000 line 1110). -/
def handleRebaseKeys (m : Model) (key : String) : Model × Cmd :=
  if m.rebaseInputFocused then
    if key = "enter" ∧ m.rebaseInputValue ≠ "" then
      match goAtoi m.rebaseInputValue with
      | some count =>
        if count > 0 ∧ count ≤ 50 then
          ({ m with rebaseInputValue := "", rebaseInputFocused := false },
           Cmd.loadRebaseCommits count)
        else ({ m with statusMsg := "❌ Invalid count (must be 1-50)" }, Cmd.none)
      | none => ({ m with statusMsg := "❌ Invalid count (must be 1-50)" }, Cmd.none)
    else (m, Cmd.none)
  else if m.rebaseCommits.length > 0 then
    if m.rebaseCommits.length ≤ m.rebaseCursor then (m, Cmd.none)
    else if key = "p" ∨ key = "s" ∨ key = "r" ∨ key = "d" ∨ key = "f" then
      let action := if key = "p" then "pick"
        else if key = "s" then "squash"
        else if key = "r" then "reword"
        else if key = "d" then "drop"
        else "fixup"
      ({ m with
          rebaseCommits := m.rebaseCommits.set m.rebaseCursor
            { m.rebaseCommits.getD m.rebaseCursor {} with Action := action } },
       Cmd.none)
    else if key = "enter" then
      ({ m with
          confirmAction := "execute-rebase",
          statusMsg := "⚠️ Press \x27y\x27 to execute rebase, or ESC to cancel" },
       Cmd.none)
    else if key = "y" then
      if m.confirmAction = "execute-rebase" then
        ({ m with confirmAction := "" }, Cmd.executeRebase)
      else (m, Cmd.none)
    else (m, Cmd.widget)
  else (m, Cmd.none)

/-- `handleHistoryKeys` (part_000 line 1181). -/
def handleHistoryKeys (m : Model) (key : String) : Model × Cmd :=
  if key = "r" then (m, Cmd.loadHistory)
  else if key = "c" then
    if m.commits.length > 0 ∧ m.historyCursor < m.commits.length then
      ({ m with statusMsg := "📋 Hash: " ++ (m.commits.getD m.historyCursor {}).Hash },
       Cmd.none)
    else (m, Cmd.none)
  else (m, Cmd.widget)

/-- `handleRemoteKeys` (part_000 line 1203). -/
def handleRemoteKeys (m : Model) (key : String) : Model × Cmd :=
  if key = "p" then (m, Cmd.gitPush)
  else if key = "l" then (m, Cmd.gitPull)
  else if key = "f" then (m, Cmd.gitFetch)
  else (m, Cmd.none)

/-- `handleToolsKeys` (part_000 line 1022). -/
def handleToolsKeys (m : Model) (key : String) : Model × Cmd :=
  if m.toolMode = "menu" then handleToolsMenuKeys m key
  else if m.toolMode = "undo" then handleUndoKeys m key
  else if m.toolMode = "rebase" then handleRebaseKeys m key
  else if m.toolMode = "history" then handleHistoryKeys m key
  else if m.toolMode = "remote" then handleRemoteKeys m key
  else (m, Cmd.none)

/-- `handleKeyPress` (part_000 line 658): global escape, global quit,
tab switching when no input is focused (entering the commit tab is
gated on a positive staged count), then per-tab dispatch. -/
def handleKeyPress (m : Model) (key : String) : Model × Cmd :=
  if key = "esc" then handleEscape m
  else if key = "ctrl+c" ∨ (key = "q" ∧ ¬ anyInputFocused m = true) then (m, Cmd.quit)
  else if ¬ anyInputFocused m = true ∧ key = "1" then
    ({ m with tab := "workspace", viewMode := "files" }, Cmd.none)
  else if ¬ anyInputFocused m = true ∧ key = "2" then
    if m.gitState.StagedFiles > 0 then
      ({ m with tab := "commit", selectedSuggestion := 0 }, Cmd.none)
    else
      ({ m with statusMsg := "❌ No files staged. Stage files first in workspace." },
       Cmd.none)
  else if ¬ anyInputFocused m = true ∧ key = "3" then
    ({ m with tab := "branches", branchComparison := none }, Cmd.loadBranches)
  else if ¬ anyInputFocused m = true ∧ key = "4" then
    ({ m with tab := "tools", toolMode := "menu" }, Cmd.none)
  else if m.tab = "workspace" then handleWorkspaceKeys m key
  else if m.tab = "commit" then handleCommitKeys m key
  else if m.tab = "branches" then handleBranchesKeys m key
  else if m.tab = "tools" then handleToolsKeys m key
  else (m, Cmd.none)

/-- `hasConflicts` (part_000 line 3188; the duplicated `Contains(status,
"A")` conjunct is reproduced as written). -/
def hasConflicts (m : Model) : Bool :=
  m.changes.any (fun change =>
    strContains change.Status "U"
      || (strContains change.Status "A" && strContains change.Status "A"))

/-- Messages delivered to `Update` (part_000 line 520): key presses and
the completion messages of asynchronous commands, whose payloads are
parses of external git output and therefore environment-chosen.
(The window-size, recent-commits, diff-content and push-output cases
only set fields outside this reduced model and are omitted.) -/
inductive Msg where
  | key (k : String)
  | gitChanges (cs : List GitChange)
  | commitSuggestions (s : List CommitSuggestion)
  | gitStatus (gs : GitStatus)
  | branches (bs : List Branch)
  | commits (cs : List Commit)
  | conflicts (cs : List ConflictFile)
  | comparison (c : BranchComparison)
  | rebaseCommits (cs : List RebaseCommit)
  | status (message : String)

/-- `Update` (part_000 line 520) on the reduced model. -/
def update (m : Model) (msg : Msg) : Model × Cmd :=
  match msg with
  | .key k => handleKeyPress m k
  | .gitChanges cs =>
    let m := { m with changes := cs }
    if hasConflicts m then (m, Cmd.loadConflicts)
    else (m, Cmd.generateCommitSuggestions)
  | .commitSuggestions s => ({ m with suggestions := s }, Cmd.none)
  | .gitStatus gs => ({ m with gitState := gs }, Cmd.none)
  | .branches bs => ({ m with branches := bs }, Cmd.none)
  | .commits cs => ({ m with commits := cs }, Cmd.none)
  | .conflicts cs =>
    if cs.length > 0 then
      ({ m with conflicts := cs, viewMode := "conflicts" }, Cmd.none)
    else ({ m with conflicts := cs }, Cmd.none)
  | .comparison c => ({ m with branchComparison := some c }, Cmd.none)
  | .rebaseCommits cs => ({ m with rebaseCommits := cs }, Cmd.none)
  | .status s => ({ m with statusMsg := s }, Cmd.none)

/-- One dispatcher step: some message (a key press or an async result
with an environment-chosen payload) is processed. -/
def Step (m m' : Model) : Prop := ∃ msg, (update m msg).1 = m'

/-- States reachable from the initial state. -/
def Reachable (m : Model) : Prop := Relation.ReflTransGen Step initialModel m

/-- `commitWithMessage` (part_000 line 2550), as a function of the
environment: `stagedQuery` is the result of
`git diff --cached --name-only` (`Except.error` for a failed
invocation) and `commitFails` tells whether the eventual
`git commit -m` invocation would fail.  The first component records
whether the commit command was issued at all. -/
def commitWithMessage (message : String) (stagedQuery : Except String String)
    (commitFails : Bool) : Bool × String :=
  match stagedQuery with
  | .error e => (false, "❌ Failed to check staged changes: " ++ e)
  | .ok statusOutput =>
    if goTrimSpace statusOutput = "" then
      (false, "❌ No staged changes to commit. Stage files first.")
    else if commitFails then (true, "❌ Commit failed - check commit message format")
    else (true, "✅ Committed: " ++ message)

/-- The two branch snapshots of the stale-token scenario: the branch
list as first loaded (`feature` not current), and as reloaded after an
external checkout of `feature`. -/
def c10Snapshot1 : List Branch := [{ Name := "feature" }, { Name := "main", IsCurrent := true }]

def c10Snapshot2 : List Branch := [{ Name := "feature", IsCurrent := true }, { Name := "main" }]

/-- The state reached by: loading branches, entering the branches tab,
arming deletion of the selected non-current branch `feature`, then
receiving a refreshed snapshot in which `feature` has become current. -/
def c10State : Model :=
  (update (update (update (update initialModel
    (Msg.branches c10Snapshot1)).1
    (Msg.key "3")).1
    (Msg.key "d")).1
    (Msg.branches c10Snapshot2)).1

/-!
# Theorems

Helper lemmas first, then one theorem per claim (with witnesses for the
theorems that carry hypotheses).
-/

lemma statusLineStep_fst (a b : Nat) (line : String) :
    (statusLineStep (a, b) line).1 = a + (if lineCountsStaged line then 1 else 0) := by
  unfold statusLineStep lineCountsStaged
  by_cases hb : goTrimSpace line = ""
  · simp [hb]
  · by_cases hl : 2 ≤ line.length
    · simp [hb, hl]
      split <;> omega
    · simp [hb, hl]

lemma statusLineStep_snd (a b : Nat) (line : String) :
    (statusLineStep (a, b) line).2 = b + (if lineCountsUnstaged line then 1 else 0) := by
  unfold statusLineStep lineCountsUnstaged
  by_cases hb : goTrimSpace line = ""
  · simp [hb]
  · by_cases hl : 2 ≤ line.length
    · simp [hb, hl]
      split <;> omega
    · simp [hb, hl]

lemma statusFold_eq (lines : List String) (a b : Nat) :
    lines.foldl statusLineStep (a, b)
      = (a + lines.countP lineCountsStaged, b + lines.countP lineCountsUnstaged) := by
  induction lines generalizing a b with
  | nil => simp
  | cons line rest ih =>
    rcases hstep : statusLineStep (a, b) line with ⟨x, y⟩
    have h1 : x = a + (if lineCountsStaged line then 1 else 0) := by
      have := statusLineStep_fst a b line
      rw [hstep] at this
      simpa using this
    have h2 : y = b + (if lineCountsUnstaged line then 1 else 0) := by
      have := statusLineStep_snd a b line
      rw [hstep] at this
      simpa using this
    rw [List.foldl_cons, hstep, ih, List.countP_cons, List.countP_cons]
    refine Prod.ext ?_ ?_ <;> simp [h1, h2] <;> split <;> omega

/-- Claim C1: for every porcelain status text, a line increments the
staged count iff its first character is neither space nor `?` and
increments the unstaged count iff its second character is not space;
blank lines are skipped without failing; and the input
`"M  a.go\n?? b.go\n D c.go\n"` yields staged = 1, unstaged = 2. -/
theorem parseGitStatusOutput_spec :
    (∀ statusText : String,
      parseGitStatusOutput statusText =
        ((goLines statusText).countP lineCountsStaged,
         (goLines statusText).countP lineCountsUnstaged,
         statusText == ""))
    ∧ parseGitStatusOutput "M  a.go\n?? b.go\n D c.go\n" = (1, 2, false) := by
  constructor
  · intro statusText
    by_cases h : statusText = ""
    · subst h; decide
    · unfold parseGitStatusOutput
      rw [if_neg h, statusFold_eq]
      simp [h]
  · decide

/-- Claim C9: `allConflictsResolved` ignores the conflict regions inside
each file (its result depends only on the per-file `IsResolved` flags),
and its final return expression `len == 0 || len > 0` is a tautology. -/
theorem allConflictsResolved_tautology :
    (∀ (cs : List ConflictFile) (g : ConflictFile → List Conflict),
        allConflictsResolved (cs.map (fun c => { c with Conflicts := g c }))
          = allConflictsResolved cs)
    ∧ (∀ cs : List ConflictFile, allConflictsResolvedFinal cs = true) := by
  have hfinal : ∀ cs : List ConflictFile, allConflictsResolvedFinal cs = true := by
    intro cs
    cases cs <;> simp [allConflictsResolvedFinal]
  refine ⟨?_, hfinal⟩
  intro cs g
  have hloop : ∀ cs : List ConflictFile,
      allConflictsResolvedLoop (cs.map (fun c => { c with Conflicts := g c }))
        = allConflictsResolvedLoop cs := by
    intro cs
    induction cs with
    | nil => rfl
    | cons c rest ih => simp [allConflictsResolvedLoop, ih]
  unfold allConflictsResolved
  rw [hloop, hfinal, hfinal]

/-- Claim C2: under persistent lock contention (lock marker present on
every attempt, or every invocation failing with lock-related output) the
runner makes at most 3 attempts and returns the distinct lock-contention
error `(none, some lockContentionMsg)`, distinguishable from an ordinary
failure (which carries `some output`); a failure whose output does not
mention the lock is returned immediately without retrying (clause 3 with
`k = 0`); and when the lock marker disappears before attempt `k`, that
attempt's result is returned (clause 3). -/
theorem executeGitCommand_spec :
    (∀ env : GitEnv, (∀ i, i < 3 → env.lockPresent i = true) →
        executeGitCommand env = (none, some lockContentionMsg))
    ∧ (∀ env : GitEnv,
        (∀ i, i < 3 → env.lockPresent i = false
            ∧ (env.run i).err.isSome = true
            ∧ strContains (env.run i).output "index.lock" = true) →
        executeGitCommand env = (none, some lockContentionMsg))
    ∧ (∀ (env : GitEnv) (k : Nat), k < 3 →
        (∀ j, j < k → env.lockPresent j = true) →
        env.lockPresent k = false →
        ((env.run k).err = none ∨ strContains (env.run k).output "index.lock" = false) →
        executeGitCommand env = (some (env.run k).output, (env.run k).err)) := by
  refine ⟨?_, ?_, ?_⟩
  · intro env h
    have h0 := h 0 (by omega)
    have h1 := h 1 (by omega)
    have h2 := h 2 (by omega)
    simp [executeGitCommand, executeGitCommandLoop, h0, h1, h2]
  · intro env h
    obtain ⟨hl0, he0, hc0⟩ := h 0 (by omega)
    obtain ⟨hl1, he1, hc1⟩ := h 1 (by omega)
    obtain ⟨hl2, he2, hc2⟩ := h 2 (by omega)
    simp [executeGitCommand, executeGitCommandLoop, hl0, he0, hc0, hl1, he1, hc1,
      hl2, he2, hc2]
  · intro env k hk hprev hfree hres
    interval_cases k
    · have hret : ((env.run 0).err.isSome && strContains (env.run 0).output "index.lock")
          = false := by
        rcases hres with h | h <;> simp [h]
      simp [executeGitCommand, executeGitCommandLoop, hfree, hret]
    · have hret : ((env.run 1).err.isSome && strContains (env.run 1).output "index.lock")
          = false := by
        rcases hres with h | h <;> simp [h]
      simp [executeGitCommand, executeGitCommandLoop, hprev 0 (by omega), hfree, hret]
    · have hret : ((env.run 2).err.isSome && strContains (env.run 2).output "index.lock")
          = false := by
        rcases hres with h | h <;> simp [h]
      simp [executeGitCommand, executeGitCommandLoop, hprev 0 (by omega),
        hprev 1 (by omega), hfree, hret]

/-- Witness for claim C2: a permanently locked repository, a repository
whose commands always fail with lock-related output, and a lock-free
repository whose first command succeeds. -/
theorem executeGitCommand_spec_witness :
    executeGitCommand { lockPresent := fun _ => true, run := fun _ => { output := "", err := none } }
      = (none, some lockContentionMsg)
    ∧ executeGitCommand
        { lockPresent := fun _ => false,
          run := fun _ => { output := "fatal: index.lock exists", err := some "exit 128" } }
      = (none, some lockContentionMsg)
    ∧ executeGitCommand { lockPresent := fun _ => false, run := fun _ => { output := "ok", err := none } }
      = (some "ok", none) :=
  ⟨executeGitCommand_spec.1 _ (fun _ _ => rfl),
   executeGitCommand_spec.2.1
     { lockPresent := fun _ => false,
       run := fun _ => { output := "fatal: index.lock exists", err := some "exit 128" } }
     (fun _ _ => ⟨rfl, rfl,
       by show strContains "fatal: index.lock exists" "index.lock" = true; decide⟩),
   executeGitCommand_spec.2.2
     { lockPresent := fun _ => false, run := fun _ => { output := "ok", err := none } }
     0 (by omega) (fun _ h => absurd h (by omega)) rfl (Or.inl rfl)⟩

lemma selectMaxFold_no_increase (count : String → Nat) (ord : List String)
    (acc : String × Nat) (h : ∀ k ∈ ord, ¬ count k > acc.2) :
    ord.foldl (fun acc k => if count k > acc.2 then (k, count k) else acc) acc = acc := by
  induction ord generalizing acc with
  | nil => rfl
  | cons k rest ih =>
    rw [List.foldl_cons, if_neg (h k (by simp))]
    exact ih _ (fun k' hk' => h k' (by simp [hk']))

lemma selectMaxFold_strict (count : String → Nat) (m : String) (ord : List String)
    (acc : String × Nat) (hacc : acc.2 < count m) (hmem : m ∈ ord)
    (hstrict : ∀ k ∈ ord, k ≠ m → count k < count m) :
    ord.foldl (fun acc k => if count k > acc.2 then (k, count k) else acc) acc
      = (m, count m) := by
  induction ord generalizing acc with
  | nil => cases hmem
  | cons k rest ih =>
    rw [List.foldl_cons]
    by_cases hk : k = m
    · subst hk
      rw [if_pos hacc]
      apply selectMaxFold_no_increase
      intro k' hk'
      by_cases h' : k' = k
      · subst h'; simp
      · have := hstrict k' (by simp [hk']) h'
        simp only [not_lt, gt_iff_lt]
        omega
    · have hmem' : m ∈ rest := by
        rcases List.mem_cons.mp hmem with h | h
        · exact absurd h.symm hk
        · exact h
      have hstrict' : ∀ k' ∈ rest, k' ≠ m → count k' < count m :=
        fun k' hk' => hstrict k' (by simp [hk'])
      by_cases hgt : count k > acc.2
      · rw [if_pos hgt]
        exact ih (k, count k) (hstrict k (by simp) hk) hmem' hstrict'
      · rw [if_neg hgt]
        exact ih acc hacc hmem' hstrict'

lemma selectMaxCount_strict (ord : List String) (count : String → Nat) (m : String)
    (hpos : 0 < count m) (hmem : m ∈ ord)
    (hstrict : ∀ k ∈ ord, k ≠ m → count k < count m) :
    selectMaxCount ord count = (m, count m) :=
  selectMaxFold_strict count m ord ("", 0) hpos hmem hstrict

lemma ctxGet_eq_zero_of_not_topic (c : CtxCounts) (m : String) (h : m ∉ ctxTopics) :
    ctxGet c m = 0 := by
  simp only [ctxTopics, List.mem_cons, List.not_mem_nil, or_false, not_or] at h
  obtain ⟨h1, h2, h3, h4, h5⟩ := h
  simp [ctxGet, h1, h2, h3, h4, h5]

lemma dominantContext_of_strict (d : String) (ord : List String) (m : String)
    (hperm : ord.Perm (ctxKeys (parseDiffScan d).2))
    (hpos : 0 < ctxGet (parseDiffScan d).2 m)
    (hstrict : ∀ k ∈ ctxKeys (parseDiffScan d).2, k ≠ m →
        ctxGet (parseDiffScan d).2 k < ctxGet (parseDiffScan d).2 m) :
    (parseDiffOutput ord d).Context = m := by
  set c := (parseDiffScan d).2 with hc
  have hmtop : m ∈ ctxTopics := by
    by_contra hnot
    rw [ctxGet_eq_zero_of_not_topic c m hnot] at hpos
    omega
  have hmkeys : m ∈ ctxKeys c := by
    unfold ctxKeys
    rw [List.mem_filter]
    exact ⟨hmtop, by simpa using hpos⟩
  have hmord : m ∈ ord := (hperm.mem_iff).mpr hmkeys
  have hstrict' : ∀ k ∈ ord, k ≠ m → ctxGet c k < ctxGet c m :=
    fun k hk => hstrict k (hperm.subset hk)
  show ({ (parseDiffScan d).1 with
      Context := (selectMaxCount ord (ctxGet (parseDiffScan d).2)).1 } : DiffInfo).Context = m
  rw [← hc, selectMaxCount_strict ord (ctxGet c) m hpos hmord hstrict']

/-- Claim C4 (amended): for every diff text and every admissible map
iteration order (a permutation of the keys present in the topic-counter
map), a topic whose counter is strictly highest becomes
`dominantContext`; when topics tie for the highest count the result
depends on the unspecified map iteration order, not on vocabulary
declaration order (see the counterexample). -/
theorem parseDiffOutput_dominantContext (d : String) (ord : List String) (m : String)
    (hperm : ord.Perm (ctxKeys (parseDiffScan d).2))
    (hpos : 0 < ctxGet (parseDiffScan d).2 m)
    (hstrict : ∀ k ∈ ctxKeys (parseDiffScan d).2, k ≠ m →
        ctxGet (parseDiffScan d).2 k < ctxGet (parseDiffScan d).2 m) :
    (parseDiffOutput ord d).Context = m :=
  dominantContext_of_strict d ord m hperm hpos hstrict

/-- Witness for claim C4: a diff with a single security keyword. -/
theorem parseDiffOutput_dominantContext_witness :
    (parseDiffOutput ["security"] "+token\n").Context = "security" :=
  parseDiffOutput_dominantContext "+token\n" ["security"] "security"
    (by decide) (by decide) (by decide)

/-- Counterexample for claim C4 as stated: on `"+bug validate\n"` the
defect topic (`fix`, declared first) and `validation` tie at 1, and the
two admissible iteration orders of the counter map produce different
`dominantContext` values, so the tie is not broken by vocabulary
declaration order. -/
theorem parseDiffOutput_tie_counterexample :
    ctxGet (parseDiffScan c4diff).2 "fix" = 1
    ∧ ctxGet (parseDiffScan c4diff).2 "validation" = 1
    ∧ ctxKeys (parseDiffScan c4diff).2 = ["fix", "validation"]
    ∧ (["validation", "fix"] : List String).Perm (ctxKeys (parseDiffScan c4diff).2)
    ∧ (parseDiffOutput ["validation", "fix"] c4diff).Context = "validation"
    ∧ (parseDiffOutput ["fix", "validation"] c4diff).Context = "fix" := by
  refine ⟨by decide, by decide, by decide, by decide, by decide, by decide⟩

/-- Counterexample for claim C3 as stated: the status `"AM"` contains
`M`, but the classifier takes its new-file branch first and returns
`feat` for `config.yaml`, where the claim's modified-file rule list
gives `chore` (config-like path). -/
theorem determineAdvancedCommitType_AM_counterexample :
    strContains "AM" "M" = true
    ∧ determineAdvancedCommitType "config.yaml" "AM" {} = "feat"
    ∧ specModifiedRules "config.yaml" {} = "chore" := by
  refine ⟨by decide, by decide, by decide⟩

/-- Claim C3 (amended): for every file whose status contains `M` and
contains neither `A` nor `D` (those branches are checked first), and
whose line counts are non-negative (as every parsed diff yields), the
classifier returns exactly the claim's first-match-wins rule list
`specModifiedRules`: docs, test, chore, manifest, more-removed fix,
functions/double feat, balanced refactor, small fix, else feat. -/
theorem determineAdvancedCommitType_modified (file status : String) (diff : DiffInfo)
    (hM : strContains status "M" = true)
    (hA : strContains status "A" = false)
    (hD : strContains status "D" = false)
    (ha : 0 ≤ diff.LinesAdded) (hr : 0 ≤ diff.LinesRemoved) :
    determineAdvancedCommitType file status diff = specModifiedRules file diff := by
  have hfix : (containsBugFixKeywords diff = true) ↔ diff.LinesRemoved > diff.LinesAdded := by
    unfold containsBugFixKeywords
    rw [decide_eq_true_eq]
    omega
  by_cases hbf : diff.LinesRemoved > diff.LinesAdded
  · have h1 : containsBugFixKeywords diff = true := hfix.mpr hbf
    simp [determineAdvancedCommitType, specModifiedRules, hA, hD, hM, h1, hbf]
  · have h1 : containsBugFixKeywords diff = false := by
      rcases Bool.eq_false_or_eq_true (containsBugFixKeywords diff) with h | h
      · exact absurd (hfix.mp h) hbf
      · exact h
    simp [determineAdvancedCommitType, specModifiedRules, hA, hD, hM, h1, hbf]

/-- Witness for claim C3 (amended) at a concrete modified file. -/
theorem determineAdvancedCommitType_modified_witness :
    determineAdvancedCommitType "config.yaml" "MM" {} = specModifiedRules "config.yaml" {} :=
  determineAdvancedCommitType_modified "config.yaml" "MM" {}
    (by decide) (by decide) (by decide) (by decide) (by decide)

set_option maxRecDepth 4000 in
lemma c8diff_scan :
    parseDiffScan c8diff
      = ({ LinesAdded := 7, LinesRemoved := 3, Functions := ["ValidateToken"],
           Keywords := ["validate", "token"] },
         { validation := 1, security := 2 }) := by decide

set_option maxRecDepth 4000 in
/-- Claim C8: for the modified file `src/auth/login.go` whose diff adds
the function `ValidateToken`, removes 3 lines and adds exactly one line
containing `token`, the pipeline yields dominantContext `security`,
scope `auth`, and the message
`feat(auth): improve security in ValidateToken`, for every admissible
iteration order of the topic-counter map. -/
theorem c8_pipeline (ord : List String)
    (hperm : ord.Perm (ctxKeys (parseDiffScan c8diff).2)) :
    (parseDiffOutput ord c8diff).Context = "security"
    ∧ (parseDiffOutput ord c8diff).Functions = ["ValidateToken"]
    ∧ (parseDiffOutput ord c8diff).LinesRemoved = 3
    ∧ (goLines c8diff).countP
        (fun l => goStartsWith l "+" && !(goStartsWith l "+++") && strContains l "token") = 1
    ∧ determineScope "src/auth/login.go" = "auth"
    ∧ (analyzeFileChange { File := "src/auth/login.go", Status := "M " }
        (parseDiffOutput ord c8diff)).Message
      = "feat(auth): improve security in ValidateToken"
    ∧ (analyzeFileChange { File := "src/auth/login.go", Status := "M " }
        (parseDiffOutput ord c8diff)).«Type» = "feat" := by
  have hctx : (parseDiffOutput ord c8diff).Context = "security" := by
    apply dominantContext_of_strict c8diff ord "security" hperm
    · rw [c8diff_scan]; decide
    · rw [c8diff_scan]; decide
  have hdiff : parseDiffOutput ord c8diff
      = { LinesAdded := 7, LinesRemoved := 3, Functions := ["ValidateToken"],
          Keywords := ["validate", "token"], Context := "security" } := by
    have : parseDiffOutput ord c8diff
        = { (parseDiffScan c8diff).1 with Context := (parseDiffOutput ord c8diff).Context } := by
      rfl
    rw [this, hctx, c8diff_scan]
  refine ⟨hctx, ?_, ?_, by decide, by decide, ?_, ?_⟩
  · rw [hdiff]
  · rw [hdiff]
  · rw [hdiff]; decide
  · rw [hdiff]; decide

set_option maxRecDepth 4000 in
/-- Witness for claim C8 at a concrete iteration order. -/
theorem c8_pipeline_witness :
    (analyzeFileChange { File := "src/auth/login.go", Status := "M " }
        (parseDiffOutput ["validation", "security"] c8diff)).Message
      = "feat(auth): improve security in ValidateToken" :=
  (c8_pipeline ["validation", "security"] (by decide)).2.2.2.2.2.1

lemma strDataAppend (a b : String) : (a ++ b).data = a.data ++ b.data := rfl

lemma formatConventionalCommit_ne (t s d : String) : formatConventionalCommit t s d ≠ "" := by
  unfold formatConventionalCommit
  split <;> intro h <;>
    · have hd := congrArg String.data h
      simp only [strDataAppend] at hd
      simp at hd

lemma selectMaxFold_bound (count : String → Nat) (ord : List String) (acc : String × Nat) :
    acc.2 ≤ (ord.foldl (fun acc k => if count k > acc.2 then (k, count k) else acc) acc).2
    ∧ (∀ k ∈ ord,
        count k ≤ (ord.foldl (fun acc k => if count k > acc.2 then (k, count k) else acc) acc).2)
    ∧ ((ord.foldl (fun acc k => if count k > acc.2 then (k, count k) else acc) acc) = acc
        ∨ count (ord.foldl (fun acc k => if count k > acc.2 then (k, count k) else acc) acc).1
            = (ord.foldl (fun acc k => if count k > acc.2 then (k, count k) else acc) acc).2) := by
  induction ord generalizing acc with
  | nil => simp
  | cons k rest ih =>
    rw [List.foldl_cons]
    by_cases h : count k > acc.2
    · rw [if_pos h]
      obtain ⟨h1, h2, h3⟩ := ih (k, count k)
      refine ⟨by simp at h1 ⊢; omega, ?_, ?_⟩
      · intro k' hk'
        rcases List.mem_cons.mp hk' with he | he
        · subst he
          simpa using h1
        · exact h2 k' he
      · rcases h3 with h3 | h3
        · right
          rw [h3]
        · right
          exact h3
    · rw [if_neg h]
      obtain ⟨h1, h2, h3⟩ := ih acc
      refine ⟨h1, ?_, h3⟩
      intro k' hk'
      rcases List.mem_cons.mp hk' with he | he
      · subst he
        omega
      · exact h2 k' he

lemma selectMaxCount_is_max (ord : List String) (count : String → Nat) (k0 : String)
    (h0 : k0 ∈ ord) (hpos : 0 < count k0) :
    ∀ k ∈ ord, count k ≤ count (selectMaxCount ord count).1 := by
  obtain ⟨h1, h2, h3⟩ := selectMaxFold_bound count ord ("", 0)
  have hr2 : 0 < (selectMaxCount ord count).2 := lt_of_lt_of_le hpos (h2 k0 h0)
  rcases h3 with h3 | h3
  · rw [show selectMaxCount ord count
        = ord.foldl (fun acc k => if count k > acc.2 then (k, count k) else acc) ("", 0)
        from rfl, h3] at hr2
    omega
  · intro k hk
    calc count k ≤ (selectMaxCount ord count).2 := h2 k hk
      _ = count (selectMaxCount ord count).1 := h3.symm

lemma generateCombinedSuggestion_message_ne (tOrd sOrd : List String)
    (individual : List CommitSuggestion) (changes : List GitChange) (h : individual ≠ []) :
    (generateCombinedSuggestion tOrd sOrd individual changes).Message ≠ "" := by
  unfold generateCombinedSuggestion
  rw [if_neg (fun hlen => h (List.length_eq_zero.mp hlen))]
  exact formatConventionalCommit_ne _ _ _

lemma generateCombinedSuggestion_type (tOrd sOrd : List String)
    (individual : List CommitSuggestion) (changes : List GitChange) (h : individual ≠ []) :
    (generateCombinedSuggestion tOrd sOrd individual changes).«Type»
      = (selectMaxCount tOrd (typeCountOf individual)).1 := by
  unfold generateCombinedSuggestion
  rw [if_neg (fun hlen => h (List.length_eq_zero.mp hlen))]

lemma typeCount_le_combined (tOrd sOrd : List String) (individual : List CommitSuggestion)
    (changes : List GitChange) (h : individual ≠ [])
    (hperm : tOrd.Perm (typeKeysOf individual)) :
    ∀ k ∈ typeKeysOf individual,
      typeCountOf individual k
        ≤ typeCountOf individual
            (generateCombinedSuggestion tOrd sOrd individual changes).«Type» := by
  cases individual with
  | nil => exact absurd rfl h
  | cons s rest =>
    have hk0mem : s.«Type» ∈ typeKeysOf (s :: rest) := by
      simp [typeKeysOf, List.mem_dedup]
    have hk0ord : s.«Type» ∈ tOrd := hperm.mem_iff.mpr hk0mem
    have hpos : 0 < typeCountOf (s :: rest) s.«Type» := by
      simp [typeCountOf, List.countP_cons]
    intro k hk
    rw [generateCombinedSuggestion_type tOrd sOrd _ changes h]
    exact selectMaxCount_is_max tOrd (typeCountOf (s :: rest)) s.«Type» hk0ord hpos
      k (hperm.mem_iff.mpr hk)

lemma maingo_generateCombinedSuggestion_message_ne (tOrd sOrd : List String)
    (individual : List CommitSuggestion) (h : individual ≠ []) :
    (MainGo.generateCombinedSuggestion tOrd sOrd individual).Message ≠ "" := by
  unfold MainGo.generateCombinedSuggestion
  rw [if_neg (fun hlen => h (List.length_eq_zero.mp hlen))]
  exact formatConventionalCommit_ne _ _ _

/-- Claim C5: for every non-empty list of N changed files, both
aggregator variants return between 1 and 9 suggestions, with the
combined suggestion (whose type maximises the per-type counts, for any
admissible iteration order of the type-count map) always first, and the
N individual suggestions appended exactly when N is at or below the
variant cap (5 in part_000, 3 in main.go); the final cap (9 resp. 5)
never truncates because the totals stay below it. -/
theorem analyzeChangesForCommits_bounds
    (ordFor : String → List String) (tOrd sOrd : List String)
    (changes : List GitChange) (diffTextOf : String → String)
    (hne : changes ≠ []) :
    (analyzeChangesForCommits ordFor tOrd sOrd changes diffTextOf
        = generateCombinedSuggestion tOrd sOrd
            (individualSuggestionsOf ordFor changes diffTextOf) changes
          :: (if changes.length ≤ 5 then individualSuggestionsOf ordFor changes diffTextOf
              else []))
    ∧ 1 ≤ (analyzeChangesForCommits ordFor tOrd sOrd changes diffTextOf).length
    ∧ (analyzeChangesForCommits ordFor tOrd sOrd changes diffTextOf).length ≤ 9
    ∧ (tOrd.Perm (typeKeysOf (individualSuggestionsOf ordFor changes diffTextOf)) →
        ∀ k ∈ typeKeysOf (individualSuggestionsOf ordFor changes diffTextOf),
          typeCountOf (individualSuggestionsOf ordFor changes diffTextOf) k
            ≤ typeCountOf (individualSuggestionsOf ordFor changes diffTextOf)
                (generateCombinedSuggestion tOrd sOrd
                  (individualSuggestionsOf ordFor changes diffTextOf) changes).«Type»)
    ∧ (MainGo.analyzeChangesForCommits tOrd sOrd changes diffTextOf
        = MainGo.generateCombinedSuggestion tOrd sOrd
            (MainGo.individualSuggestionsOf changes diffTextOf)
          :: (if changes.length ≤ 3 then MainGo.individualSuggestionsOf changes diffTextOf
              else []))
    ∧ 1 ≤ (MainGo.analyzeChangesForCommits tOrd sOrd changes diffTextOf).length
    ∧ (MainGo.analyzeChangesForCommits tOrd sOrd changes diffTextOf).length ≤ 9 := by
  have hlen : (individualSuggestionsOf ordFor changes diffTextOf).length = changes.length :=
    List.length_map _ _
  have hindne : individualSuggestionsOf ordFor changes diffTextOf ≠ [] := by
    intro he
    apply hne
    simpa [individualSuggestionsOf] using he
  have hmsg := generateCombinedSuggestion_message_ne tOrd sOrd
    (individualSuggestionsOf ordFor changes diffTextOf) changes hindne
  have hlen2 : (MainGo.individualSuggestionsOf changes diffTextOf).length = changes.length :=
    List.length_map _ _
  have hindne2 : MainGo.individualSuggestionsOf changes diffTextOf ≠ [] := by
    intro he
    apply hne
    simpa [MainGo.individualSuggestionsOf] using he
  have hmsg2 := maingo_generateCombinedSuggestion_message_ne tOrd sOrd
    (MainGo.individualSuggestionsOf changes diffTextOf) hindne2
  have hstruct : analyzeChangesForCommits ordFor tOrd sOrd changes diffTextOf
      = generateCombinedSuggestion tOrd sOrd
          (individualSuggestionsOf ordFor changes diffTextOf) changes
        :: (if changes.length ≤ 5 then individualSuggestionsOf ordFor changes diffTextOf
            else []) := by
    unfold analyzeChangesForCommits
    dsimp only
    rw [if_pos hmsg, hlen]
    by_cases h5 : changes.length ≤ 5
    · rw [if_pos h5, if_pos h5, if_neg (by simp; omega)]
      simp
    · rw [if_neg h5, if_neg h5, if_neg (by simp)]
  have hstruct2 : MainGo.analyzeChangesForCommits tOrd sOrd changes diffTextOf
      = MainGo.generateCombinedSuggestion tOrd sOrd
          (MainGo.individualSuggestionsOf changes diffTextOf)
        :: (if changes.length ≤ 3 then MainGo.individualSuggestionsOf changes diffTextOf
            else []) := by
    unfold MainGo.analyzeChangesForCommits
    dsimp only
    rw [if_pos hmsg2, hlen2]
    by_cases h3 : changes.length ≤ 3
    · rw [if_pos h3, if_pos h3, if_neg (by simp; omega)]
      simp
    · rw [if_neg h3, if_neg h3, if_neg (by simp)]
  refine ⟨hstruct, ?_, ?_, ?_, hstruct2, ?_, ?_⟩
  · rw [hstruct]
    simp
  · rw [hstruct]
    by_cases h5 : changes.length ≤ 5 <;> simp [h5, hlen] <;> omega
  · intro hperm
    exact typeCount_le_combined tOrd sOrd _ changes hindne hperm
  · rw [hstruct2]
    simp
  · rw [hstruct2]
    by_cases h3 : changes.length ≤ 3 <;> simp [h3, hlen2] <;> omega

/-- Witness for claim C5: a single modified file with an empty diff. -/
theorem analyzeChangesForCommits_bounds_witness :
    1 ≤ (analyzeChangesForCommits (fun _ => []) [] []
          [{ File := "a.go", Status := "M " }] (fun _ => "")).length
    ∧ (analyzeChangesForCommits (fun _ => []) [] []
          [{ File := "a.go", Status := "M " }] (fun _ => "")).length ≤ 9
    ∧ 1 ≤ (MainGo.analyzeChangesForCommits [] []
          [{ File := "a.go", Status := "M " }] (fun _ => "")).length
    ∧ (MainGo.analyzeChangesForCommits [] []
          [{ File := "a.go", Status := "M " }] (fun _ => "")).length ≤ 9 :=
  have h := analyzeChangesForCommits_bounds (fun _ => []) [] []
    [{ File := "a.go", Status := "M " }] (fun _ => "") (List.cons_ne_nil _ _)
  ⟨h.2.1, h.2.2.1, h.2.2.2.2.2.1, h.2.2.2.2.2.2⟩

/-- Claim C6: each escape press undoes exactly one level, in the order
input blur (commit, branch, rebase), innermost open sub-view (diff
panel, branch comparison, tools sub-mode), pending confirmation token;
and in the diff-panel-plus-pending-token scenario the first escape
closes the diff leaving the token set while the second clears the token
and emits the cancellation status message. -/
theorem handleEscape_one_level :
    (∀ m : Model, m.commitInputFocused = true →
        handleEscape m = ({ m with commitInputFocused := false, selectedSuggestion := 0 },
          Cmd.none))
    ∧ (∀ m : Model, m.commitInputFocused = false → m.branchInputFocused = true →
        handleEscape m = ({ m with branchInputFocused := false, branchInputValue := "" },
          Cmd.none))
    ∧ (∀ m : Model, m.commitInputFocused = false → m.branchInputFocused = false →
        m.rebaseInputFocused = true →
        handleEscape m = ({ m with rebaseInputFocused := false, rebaseInputValue := "" },
          Cmd.none))
    ∧ (∀ m : Model, anyInputFocused m = false → m.viewMode = "diff" →
        handleEscape m = ({ m with viewMode := "files" }, Cmd.none))
    ∧ (∀ m : Model, anyInputFocused m = false → m.viewMode ≠ "diff" →
        m.branchComparison = none → ¬ (m.tab = "tools" ∧ m.toolMode ≠ "menu") →
        m.confirmAction ≠ "" →
        handleEscape m = ({ m with confirmAction := "", statusMsg := "❌ Action cancelled" },
          Cmd.none))
    ∧ (∀ m : Model, anyInputFocused m = false → m.viewMode = "diff" →
        m.branchComparison = none → m.tab = "workspace" → m.confirmAction ≠ "" →
        (handleEscape m).1.confirmAction = m.confirmAction
        ∧ (handleEscape m).1.viewMode = "files"
        ∧ (handleEscape (handleEscape m).1).1.confirmAction = ""
        ∧ (handleEscape (handleEscape m).1).1.statusMsg = "❌ Action cancelled") := by
  have hfoc : ∀ m : Model, anyInputFocused m = false →
      m.commitInputFocused = false ∧ m.branchInputFocused = false
        ∧ m.rebaseInputFocused = false := by
    intro m h
    have h2 := h
    simp only [anyInputFocused, Bool.or_eq_false_iff] at h2
    exact ⟨h2.1.1, h2.1.2, h2.2⟩
  refine ⟨?_, ?_, ?_, ?_, ?_, ?_⟩
  · intro m h
    simp [handleEscape, h]
  · intro m h1 h2
    simp [handleEscape, h1, h2]
  · intro m h1 h2 h3
    simp [handleEscape, h1, h2, h3]
  · intro m hfm hd
    obtain ⟨h1, h2, h3⟩ := hfoc m hfm
    simp [handleEscape, h1, h2, h3, hd]
  · intro m hfm hd hcomp htool hconf
    obtain ⟨h1, h2, h3⟩ := hfoc m hfm
    simp [handleEscape, h1, h2, h3, hd, hcomp, htool, hconf]
  · intro m hfm hd hcomp htab hconf
    obtain ⟨h1, h2, h3⟩ := hfoc m hfm
    have hfirst : handleEscape m = ({ m with viewMode := "files" }, Cmd.none) := by
      simp [handleEscape, h1, h2, h3, hd]
    refine ⟨by rw [hfirst], by rw [hfirst], ?_, ?_⟩ <;>
      · rw [hfirst]
        simp [handleEscape, h1, h2, h3, hcomp, htab, hconf]

/-- Witness for claim C6: the two-press scenario at a concrete state. -/
theorem handleEscape_one_level_witness :
    handleEscape { initialModel with viewMode := "diff", confirmAction := "delete-branch:x" }
        = ({ initialModel with viewMode := "files", confirmAction := "delete-branch:x" },
          Cmd.none)
    ∧ (handleEscape (handleEscape { initialModel with
          viewMode := "diff", confirmAction := "delete-branch:x" }).1).1.confirmAction = ""
    ∧ (handleEscape (handleEscape { initialModel with
          viewMode := "diff", confirmAction := "delete-branch:x" }).1).1.statusMsg
        = "❌ Action cancelled" := by
  have h := handleEscape_one_level.2.2.2.2.2
    { initialModel with viewMode := "diff", confirmAction := "delete-branch:x" }
    (by decide) rfl rfl rfl (by decide)
  exact ⟨by rw [handleEscape_one_level.2.2.2.1 _ (by decide) rfl], h.2.2.1, h.2.2.2⟩

/-- Claim C7: pressing the commit-tab key with a zero staged count
leaves the tab unchanged and emits a status message instead, and
`commitWithMessage` returns the no-staged-changes error message without
issuing the commit command (first component `false`) whenever the
staged-files query comes back blank. -/
theorem commit_requires_staged :
    (∀ m : Model, anyInputFocused m = false → m.gitState.StagedFiles = 0 →
        handleKeyPress m "2"
          = ({ m with statusMsg := "❌ No files staged. Stage files first in workspace." },
            Cmd.none)
          ∧ (handleKeyPress m "2").1.tab = m.tab)
    ∧ (∀ (message stagedOut : String) (commitFails : Bool),
        goTrimSpace stagedOut = "" →
        commitWithMessage message (Except.ok stagedOut) commitFails
          = (false, "❌ No staged changes to commit. Stage files first.")) := by
  constructor
  · intro m hfoc hstaged
    have hns : ¬ m.gitState.StagedFiles > 0 := by omega
    have h : handleKeyPress m "2"
        = ({ m with statusMsg := "❌ No files staged. Stage files first in workspace." },
          Cmd.none) := by
      simp [handleKeyPress, hfoc, hstaged, hns]
    exact ⟨h, by rw [h]⟩
  · intro message stagedOut commitFails h
    simp [commitWithMessage, h]

/-- Witness for claim C7 at the initial state and a blank staged
query. -/
theorem commit_requires_staged_witness :
    handleKeyPress initialModel "2"
        = ({ initialModel with
            statusMsg := "❌ No files staged. Stage files first in workspace." }, Cmd.none)
    ∧ commitWithMessage "feat: x" (Except.ok "  \n") false
        = (false, "❌ No staged changes to commit. Stage files first.") :=
  ⟨(commit_requires_staged.1 initialModel (by decide) rfl).1,
   commit_requires_staged.2 "feat: x" "  \n" false (by decide)⟩

lemma confirmAction_handleConflictKeys (m : Model) (k : String) :
    (handleConflictKeys m k).1.confirmAction = m.confirmAction := by
  unfold handleConflictKeys
  split_ifs <;> rfl

lemma confirmAction_handleWorkspaceKeys (m : Model) (k : String) :
    (handleWorkspaceKeys m k).1.confirmAction = m.confirmAction := by
  unfold handleWorkspaceKeys
  dsimp only
  split_ifs <;> first
    | rfl
    | exact confirmAction_handleConflictKeys m k

lemma confirmAction_handleCommitKeys (m : Model) (k : String) :
    (handleCommitKeys m k).1.confirmAction = m.confirmAction := by
  unfold handleCommitKeys
  split_ifs <;> rfl

lemma confirmAction_handleToolsKeys_d (m : Model) :
    (handleToolsKeys m "d").1.confirmAction = m.confirmAction := by
  have he : ("d" = "enter") = False := by simp
  have hy : ("d" = "y") = False := by simp
  have hr : ("d" = "r") = False := by simp
  have hc : ("d" = "c") = False := by simp
  have hp : ("d" = "p") = False := by simp
  have hl : ("d" = "l") = False := by simp
  have hf : ("d" = "f") = False := by simp
  have hs : ("d" = "s") = False := by simp
  have hd : ("d" = "d") = True := by simp
  simp only [handleToolsKeys, handleToolsMenuKeys, handleUndoKeys, handleRebaseKeys,
    handleHistoryKeys, handleRemoteKeys, he, hy, hr, hc, hp, hl, hf, hs, hd,
    false_and, if_false, if_true, false_or, or_false, true_or, or_true]
  split_ifs <;> rfl

/-- Claim C10 (amended): pressing `d` with the current branch selected
only emits the `Cannot delete current branch` message and leaves the
confirmation token unchanged; and in every state, whenever `d` changes
the token, the token names a branch that is not current in the
branches snapshot at press time.  The unqualified claim — that a delete
command is never issued for the currently checked-out branch — fails:
see the stale-token counterexample. -/
theorem branchDelete_gate (m : Model) :
    (m.tab = "branches" → anyInputFocused m = false → m.branchComparison = none →
      m.branchesCursor < m.branches.length →
      (m.branches.getD m.branchesCursor { Name := "" }).IsCurrent = true →
      handleKeyPress m "d"
        = ({ m with statusMsg := "❌ Cannot delete current branch" }, Cmd.none))
    ∧ ((handleKeyPress m "d").1.confirmAction ≠ m.confirmAction →
        ∃ b, b ∈ m.branches ∧ b.IsCurrent = false
          ∧ (handleKeyPress m "d").1.confirmAction = "delete-branch:" ++ b.Name) := by
  have hred : handleKeyPress m "d"
      = (if m.tab = "workspace" then handleWorkspaceKeys m "d"
         else if m.tab = "commit" then handleCommitKeys m "d"
         else if m.tab = "branches" then handleBranchesKeys m "d"
         else if m.tab = "tools" then handleToolsKeys m "d"
         else (m, Cmd.none)) := by
    simp [handleKeyPress]
  constructor
  · intro htab hfoc hcomp hcur hcurr
    have hbf : m.branchInputFocused = false := by
      simp only [anyInputFocused, Bool.or_eq_false_iff] at hfoc
      exact hfoc.1.2
    have hlen : m.branches.length > 0 := by omega
    have hcurr2 : (m.branches[m.branchesCursor]).IsCurrent = true := by
      have h := hcurr
      rw [List.getD_eq_getElem _ _ hcur] at h
      exact h
    rw [hred, if_neg (by rw [htab]; decide), if_neg (by rw [htab]; decide),
      if_pos htab]
    simp [handleBranchesKeys, hbf, hcomp, hlen, hcur, hcurr2]
  · intro hch
    rw [hred] at hch ⊢
    by_cases h1 : m.tab = "workspace"
    · rw [if_pos h1, confirmAction_handleWorkspaceKeys] at hch
      exact absurd rfl hch
    · rw [if_neg h1] at hch ⊢
      by_cases h2 : m.tab = "commit"
      · rw [if_pos h2, confirmAction_handleCommitKeys] at hch
        exact absurd rfl hch
      · rw [if_neg h2] at hch ⊢
        by_cases h3 : m.tab = "branches"
        · rw [if_pos h3] at hch ⊢
          unfold handleBranchesKeys at hch ⊢
          by_cases hf : m.branchInputFocused = true
          · simp only [hf, if_true] at hch ⊢
            split_ifs at hch ⊢ <;> exact absurd rfl hch
          · have hf' : m.branchInputFocused = false := by
              rcases Bool.eq_false_or_eq_true m.branchInputFocused with h | h
              · exact absurd h hf
              · exact h
            simp only [hf', Bool.false_eq_true, if_false] at hch ⊢
            by_cases hc : m.branchComparison.isSome = true
            · simp only [hc, if_true] at hch
              exact absurd rfl hch
            · simp only [hc, Bool.false_eq_true, if_false] at hch ⊢
              simp only [show ("d" = "enter") = False from by simp,
                show ("d" = "n") = False from by simp, if_false] at hch ⊢
              simp only [if_true] at hch ⊢
              by_cases hb : m.branches.length > 0 ∧ m.branchesCursor < m.branches.length
              · rw [if_pos hb] at hch ⊢
                by_cases hcur : (m.branches.getD m.branchesCursor { Name := "" }).IsCurrent
                  = true
                · rw [if_pos hcur] at hch
                  exact absurd rfl hch
                · rw [if_neg hcur] at hch ⊢
                  refine ⟨m.branches.getD m.branchesCursor { Name := "" }, ?_, ?_, rfl⟩
                  · rw [List.getD_eq_getElem _ _ hb.2]
                    exact List.getElem_mem _
                  · rcases Bool.eq_false_or_eq_true
                      (m.branches.getD m.branchesCursor { Name := "" }).IsCurrent with h | h
                    · exact absurd h hcur
                    · exact h
              · rw [if_neg hb] at hch
                exact absurd rfl hch
        · rw [if_neg h3] at hch ⊢
          by_cases h4 : m.tab = "tools"
          · rw [if_pos h4, confirmAction_handleToolsKeys_d] at hch
            exact absurd rfl hch
          · rw [if_neg h4] at hch
            exact absurd rfl hch

/-- Witness for claim C10 (amended) at a concrete state whose only
branch is current. -/
theorem branchDelete_gate_witness :
    handleKeyPress { initialModel with
        tab := "branches",
        branches := [{ Name := "main", IsCurrent := true }] } "d"
      = ({ initialModel with
          tab := "branches",
          branches := [{ Name := "main", IsCurrent := true }],
          statusMsg := "❌ Cannot delete current branch" }, Cmd.none) :=
  (branchDelete_gate { initialModel with
      tab := "branches", branches := [{ Name := "main", IsCurrent := true }] }).1
    rfl (by decide) rfl (by decide) (by decide)

/-- Counterexample for claim C10 as stated: a reachable state (arm
deletion of the non-current `feature`, then receive a refreshed branch
snapshot in which `feature` has become current — the payload of a
branches message is the parse of external git output) in which pressing
`y` issues a delete command for the branch marked current. -/
theorem branchDelete_stale_counterexample :
    Reachable c10State
    ∧ (∃ b ∈ c10State.branches, b.IsCurrent = true ∧ b.Name = "feature")
    ∧ (update c10State (Msg.key "y")).2 = Cmd.deleteBranch "feature" := by
  refine ⟨?_, ⟨{ Name := "feature", IsCurrent := true }, ?_, rfl, rfl⟩, rfl⟩
  · have h1 : Step initialModel (update initialModel (Msg.branches c10Snapshot1)).1 :=
      ⟨Msg.branches c10Snapshot1, rfl⟩
    have h2 : Step (update initialModel (Msg.branches c10Snapshot1)).1
        (update (update initialModel (Msg.branches c10Snapshot1)).1 (Msg.key "3")).1 :=
      ⟨Msg.key "3", rfl⟩
    have h3 : Step (update (update initialModel (Msg.branches c10Snapshot1)).1
          (Msg.key "3")).1
        (update (update (update initialModel (Msg.branches c10Snapshot1)).1
          (Msg.key "3")).1 (Msg.key "d")).1 :=
      ⟨Msg.key "d", rfl⟩
    have h4 : Step (update (update (update initialModel (Msg.branches c10Snapshot1)).1
          (Msg.key "3")).1 (Msg.key "d")).1 c10State :=
      ⟨Msg.branches c10Snapshot2, rfl⟩
    exact Relation.ReflTransGen.tail
      (Relation.ReflTransGen.tail
        (Relation.ReflTransGen.tail (Relation.ReflTransGen.tail Relation.ReflTransGen.refl h1)
          h2) h3) h4
  · show _ ∈ c10State.branches
    rw [show c10State.branches = c10Snapshot2 from rfl]
    exact List.mem_cons_self _ _
